import Mathlib

/-!
# systemtap interactive mode (`interactive.cxx`): a shallow embedding

The embedding follows `src/interactive.cxx`.  A C++ `std::string` is a list of
characters, a `std::vector` is a list, a `std::map<string, T>` is an association
list kept in ascending key order (the order in which its iterators run), and
function-local `static` variables are explicit state that is passed in and
returned.
-/

namespace Interactive

/-- A C++ `std::string`: the sequence of its characters. -/
abbrev string := List Char

/-! ## Helpers of `std::string` and of `util.cxx` used by the file -/

/-- Comparison `a < b` of `std::string`: lexicographic on characters, a proper
prefix being smaller.  This is the ordering of the keys of a `std::map`. -/
def string_lt : string → string → Bool
  | [], [] => false
  | [], _ :: _ => true
  | _ :: _, [] => false
  | a :: as, b :: bs =>
    if a < b then true else if b < a then false else string_lt as bs

/-- The member `s.find(pat)`: position of the first occurrence of `pat` in `s`,
`none` standing for `string::npos`. -/
def string_find (pat : string) : string → Option Nat
  | [] => if pat.isEmpty then some 0 else none
  | c :: cs =>
    if pat.isPrefixOf (c :: cs) then some 0
    else (string_find pat cs).map (· + 1)

/-- Worker of `tokenize`: `cur` is the token being read. -/
def tokenize_go (delimiters : string) : string → string → List string
  | [], cur => if cur.isEmpty then [] else [cur]
  | c :: cs, cur =>
    if delimiters.contains c then
      (if cur.isEmpty then tokenize_go delimiters cs []
       else cur :: tokenize_go delimiters cs [])
    else tokenize_go delimiters cs (cur ++ [c])

/-- Modelled from the spec: `tokenize(str, tokens, delimiters)` of `util.cxx`,
which is not among the sources.  The spec has it split the text on the
delimiter characters into ordered segments ("tokenize on whitespace",
"split the remaining text on `.`"); the tokens are the maximal runs of
characters that are not delimiters, so no token is empty and leading,
trailing and repeated delimiters produce nothing. -/
def tokenize (str delimiters : string) : List string :=
  tokenize_go delimiters str []

/-- Modelled from the spec: `join(vec, delim)` of `util.h`, which is not among
the sources: the elements in order with `delim` between consecutive ones. -/
def join : List string → string → string
  | [], _ => []
  | [x], _ => x
  | x :: y :: rest, delim => x ++ delim ++ join (y :: rest) delim

/-- The pattern `"^\\([x0-9a-fA-F]+\\)$"` installed for a `(number)` segment. -/
def number_regexp : string := "^\\([x0-9a-fA-F]+\\)$".toList

/-- The pattern `"^\\(\"[^\"]+\"\\)$"` installed for a `(string)` segment. -/
def string_regexp : string := "^\\(\"[^\"]+\"\\)$".toList

/-- Membership in the bracket expression `[x0-9a-fA-F]`. -/
def hex_class (c : Char) : Bool :=
  c == 'x' || (decide ('0' ≤ c) && decide (c ≤ '9'))
    || (decide ('a' ≤ c) && decide (c ≤ 'f'))
    || (decide ('A' ≤ c) && decide (c ≤ 'F'))

/-- The text `value` is `(`, one or more characters satisfying `cls`, `)`. -/
def parenthesised (cls : Char → Bool) (inner : string → Option string)
    (value : string) : Bool :=
  match value with
  | '(' :: rest =>
    match rest.reverse with
    | ')' :: rbody =>
      match inner rbody.reverse with
      | some body => !body.isEmpty && body.all cls
      | none => false
    | _ => false
  | _ => false

/-- Strips one leading and one trailing double quote. -/
def unquote (s : string) : Option string :=
  match s with
  | '"' :: rest =>
    match rest.reverse with
    | '"' :: rbody => some rbody.reverse
    | _ => none
  | _ => none

/-- Modelled from the spec: `regexp_match(value, re, matches)` of `util.cxx`,
which is not among the sources; it returns 0 exactly when `value` matches the
pattern `re`.  The two patterns that `process_probe_list` installs are
interpreted as written there, the "hex-literal pattern" `number_regexp`
(an opening parenthesis, one or more of `x`, digits, `a`-`f`, `A`-`F`, a
closing parenthesis) and the "double-quoted-literal pattern" `string_regexp`
(an opening parenthesis, a double quote, one or more characters other than a
double quote, a double quote, a closing parenthesis), both anchored at the two
ends.  No other pattern occurs in the file; for one the model answers 1. -/
def regexp_match (value re : string) : Int :=
  if re = number_regexp then
    (if parenthesised hex_class some value then 0 else 1)
  else if re = string_regexp then
    (if parenthesised (fun c => c != '"') unquote value then 0 else 1)
  else 1

/-! ## The parse tree of probe names -/

/-- The `struct match_item`.  `sub_matches` is the `match_item_map`
(`std::map<string, match_item*>`), listed in ascending key order. -/
inductive match_item where
  | mk (match_text : string) (regexp : string) (terminal : Bool)
      (sub_matches : List (string × match_item))

/-- The `match_item_map`: entries in the order a `std::map` iterates them. -/
abbrev match_item_map := List (string × match_item)

namespace match_item

/-- The field `match_text`. -/
def match_text : match_item → string
  | mk t _ _ _ => t

/-- The field `regexp`. -/
def regexp : match_item → string
  | mk _ r _ _ => r

/-- The field `terminal`. -/
def terminal : match_item → Bool
  | mk _ _ t _ => t

/-- The field `sub_matches`. -/
def sub_matches : match_item → match_item_map
  | mk _ _ _ s => s

/-- The member `match_item::full_match`: with no regexp the text equals
`match_text`; otherwise `match_text` is strictly shorter than the text, starts
it (`text.substr(0, len) == match_text`), and the rest (`text.substr(len)`)
matches the regexp. -/
def full_match (mi : match_item) (text : string) : Bool :=
  if mi.regexp.isEmpty then decide (text = mi.match_text)
  else
    let len := mi.match_text.length
    decide (len < text.length) && decide (text.take len = mi.match_text)
      && decide (regexp_match (text.drop len) mi.regexp = 0)

/-- The member `match_item::partial_match`: the empty text matches, otherwise
`match_text.compare(0, len, text) == 0`, the first `len` characters of
`match_text` (fewer when it is shorter) being compared with `text`. -/
def partial_match (mi : match_item) (text : string) : Bool :=
  let len := text.length
  if len = 0 then true
  else decide (mi.match_text.take len = text)

end match_item

/-! ### `std::map` operations on a `match_item_map` -/

/-- The member `map.count(key)`: 1 when the key is present, else 0. -/
def map_count (m : match_item_map) (key : string) : Nat :=
  if m.any (fun e => decide (e.1 = key)) then 1 else 0

/-- The assignment `map[key] = mi`: a `std::map` keeps its entries in ascending
key order, so a new key goes in front of the first greater key. -/
def map_insert (key : string) (mi : match_item) :
    match_item_map → match_item_map
  | [] => [(key, mi)]
  | (k, v) :: rest =>
    if string_lt key k then (key, mi) :: (k, v) :: rest
    else if key = k then (key, mi) :: rest
    else (k, v) :: map_insert key mi rest

/-- The step `match_map = &((*match_map)[key]->sub_matches)` followed by the
work `f` done through that pointer, for a key that is present: the item keeps
its own fields and its `sub_matches` become `f sub_matches`. -/
def map_descend (key : string) (f : match_item_map → match_item_map) :
    match_item_map → match_item_map
  | [] => []
  | (k, v) :: rest =>
    if k = key then
      (k, match_item.mk v.match_text v.regexp v.terminal (f v.sub_matches)) :: rest
    else (k, v) :: map_descend key f rest

/-! ### `process_probe_list` -/

/-- The body of `if (match_map->count(*it) == 0)` up to the insertion: the new
`match_item` for the segment `tok`, where `back` is `tokens.back()` and `subs`
is what the rest of the line builds in `mi->sub_matches`. -/
def new_match_item (handle_regexps : Bool) (tok back : string)
    (subs : match_item_map) : match_item :=
  let number_pos := if handle_regexps then string_find "(number)".toList tok else none
  let string_pos := if handle_regexps then string_find "(string)".toList tok else none
  match number_pos, string_pos with
  | some pos, _ => match_item.mk (tok.take pos) number_regexp (decide (tok = back)) subs
  | none, some pos => match_item.mk (tok.take pos) string_regexp (decide (tok = back)) subs
  | none, none => match_item.mk tok [] (decide (tok = back)) subs

/-- The `for` loop of `process_probe_list` over the tokens of one line,
starting at `match_map`; `back` is `tokens.back()`. -/
def process_tokens (handle_regexps : Bool) (back : string) :
    List string → match_item_map → match_item_map
  | [], match_map => match_map
  | tok :: rest, match_map =>
    if map_count match_map tok = 0 then
      map_insert tok
        (new_match_item handle_regexps tok back
          (process_tokens handle_regexps back rest []))
        match_map
    else
      map_descend tok (fun sub => process_tokens handle_regexps back rest sub)
        match_map

/-- One round of the `while` loop of `process_probe_list` for the line that
`getline` delivered. -/
def process_line (handle_regexps : Bool) (probe_map : match_item_map)
    (line : string) : match_item_map :=
  if line.isEmpty then probe_map
  else
    let line :=
      match string_find " ".toList line with
      | some space_pos => line.take space_pos
      | none => line
    let tokens := tokenize line ".".toList
    process_tokens handle_regexps (tokens.getLastD []) tokens probe_map

/-- The function `process_probe_list(probe_stream, handle_regexps)`;
`probe_stream` is given by the lines that `getline` delivers in turn, and the
global `probe_map` is passed in and returned. -/
def process_probe_list (probe_stream : List string) (handle_regexps : Bool)
    (probe_map : match_item_map) : match_item_map :=
  probe_stream.foldl (process_line handle_regexps) probe_map

/-! ### `probe_generator` -/

/-- The `static std::stack< pair<string, match_item *> >`, top first. -/
abbrev probe_stack := List (string × match_item)

/-- The first `for` loop of `probe_generator`: for each token of the saved
token the first item of the current map (in iteration order) that fully matches
it is entered; the walk stops at the first token without a match. -/
def probe_descend : List string → match_item_map → match_item_map
  | [], match_map => match_map
  | tok :: rest, match_map =>
    match match_map.find? (fun e => e.2.full_match tok) with
    | some e => probe_descend rest e.2.sub_matches
    | none => match_map

/-- The loop `for (rit = match_map->rbegin(); ...)` that pushes the items
partially matching `text`, last key first. -/
def push_partial_matches (text : string) (match_map : match_item_map)
    (stack : probe_stack) : probe_stack :=
  match_map.reverse.foldl
    (fun st e => if e.2.partial_match text then (e.1, e.2) :: st else st) stack

/-- The string `prefix + "." + key` under which a child is pushed. -/
def child_path (pfx key : string) : string := pfx ++ ".".toList ++ key

/-- The loop "Push all children": last key first, each under
`prefix + "." + key`. -/
def push_children (pfx : string) (sub_matches : match_item_map)
    (stack : probe_stack) : probe_stack :=
  sub_matches.reverse.foldl
    (fun st e => (child_path pfx e.1, e.2) :: st) stack

/-- The loop "Handle the stack" of `probe_generator`.  Each round of the
`while` uses one unit of `fuel`; `none` means the fuel ran out, `some (r, st)`
that the function returned `r` (`none` for `NULL`) leaving the stack `st`. -/
def probe_loop : Nat → probe_stack → Option (Option string × probe_stack)
  | _, [] => some (none, [])
  | 0, _ :: _ => none
  | fuel + 1, (pfx, item) :: stack =>
    let stack := push_children pfx item.sub_matches stack
    if item.terminal then some (some pfx, stack)
    else probe_loop fuel stack

/-- The function `probe_generator(text, state)`, with the globals `probe_map`
and `saved_token` and the static `stack` made explicit. -/
def probe_generator (probe_map : match_item_map) (saved_token : string)
    (fuel : Nat) (text : string) (state : Int) (stack : probe_stack) :
    Option (Option string × probe_stack) :=
  let stack :=
    if state = 0 then
      let tokens := tokenize saved_token ".".toList
      let match_map := probe_descend tokens probe_map
      push_partial_matches text match_map []
    else stack
  probe_loop fuel stack

/-! ## Commands, options and their generators -/

/-- The classes derived from `cmdopt`; `interactive_mode` creates one object of
each.  The class `run_cmd` is written `run_cmd_` here. -/
inductive cmdopt where
  | add_cmd | delete_cmd | list_cmd | edit_cmd | load_cmd | save_cmd | run_cmd_
  | set_cmd | show_cmd | help_cmd | quit_cmd
  | keep_tmpdir_opt | last_pass_opt | verbose_opt | guru_mode_opt
  | suppress_warnings_opt | panic_warnings_opt | timing_opt | unoptimized_opt
  | target_pid_opt | cmd_opt
  deriving DecidableEq, Repr

/-- The field `name` as each constructor sets it. -/
def cmdopt.name : cmdopt → string
  | .add_cmd => "add".toList
  | .delete_cmd => "delete".toList
  | .list_cmd => "list".toList
  | .edit_cmd => "edit".toList
  | .load_cmd => "load".toList
  | .save_cmd => "save".toList
  | .run_cmd_ => "run".toList
  | .set_cmd => "set".toList
  | .show_cmd => "show".toList
  | .help_cmd => "help".toList
  | .quit_cmd => "quit".toList
  | .keep_tmpdir_opt => "keep_tmpdir".toList
  | .last_pass_opt => "last_pass".toList
  | .verbose_opt => "verbose".toList
  | .guru_mode_opt => "guru_mode".toList
  | .suppress_warnings_opt => "suppress_warnings".toList
  | .panic_warnings_opt => "panic_warnings".toList
  | .timing_opt => "timing".toList
  | .unoptimized_opt => "unoptimized".toList
  | .target_pid_opt => "target_pid".toList
  | .cmd_opt => "cmd".toList

/-- The vector `command_vec` as `interactive_mode` fills it. -/
def command_vec : List cmdopt :=
  [.add_cmd, .delete_cmd, .list_cmd, .edit_cmd, .load_cmd, .save_cmd, .run_cmd_,
   .set_cmd, .show_cmd, .help_cmd, .quit_cmd]

/-- The vector `option_command_vec` as `interactive_mode` fills it. -/
def option_command_vec : List cmdopt := [.set_cmd, .show_cmd]

/-- The vector `option_vec` as `interactive_mode` fills it. -/
def option_vec : List cmdopt :=
  [.keep_tmpdir_opt, .last_pass_opt, .verbose_opt, .guru_mode_opt,
   .suppress_warnings_opt, .panic_warnings_opt, .timing_opt, .unoptimized_opt,
   .target_pid_opt, .cmd_opt]

/-- The C function `strncmp(s1, s2, n)` on strings without an embedded NUL:
at most `n` characters are compared and the end of a string is its terminator,
smaller than every character.  The result is 0, negative or positive. -/
def strncmp : string → string → Nat → Int
  | _, _, 0 => 0
  | [], [], _ + 1 => 0
  | [], _ :: _, _ + 1 => -1
  | _ :: _, [], _ + 1 => 1
  | a :: as, b :: bs, n + 1 =>
    if a < b then -1 else if b < a then 1 else strncmp as bs n

/-- The two `static size_t list_index, len` of a name generator. -/
structure generator_static where
  list_index : Nat
  len : Nat
  deriving DecidableEq, Repr

/-- The `while (list_index < vec.size())` loop shared by `command_generator`
and `option_generator`; the first argument is the part of the vector from
`list_index` on.  It gives the returned name (`none` for `NULL`) and the final
`list_index`. -/
def name_loop (text : string) (len : Nat) :
    List cmdopt → Nat → Option string × Nat
  | [], list_index => (none, list_index)
  | cmd :: rest, list_index =>
    if strncmp cmd.name text len = 0 then (some cmd.name, list_index + 1)
    else name_loop text len rest (list_index + 1)

/-- The function `command_generator(text, state)` over the global
`command_vec`, with its statics made explicit. -/
def command_generator (command_vec : List cmdopt) (text : string) (state : Int)
    (st : generator_static) : Option string × generator_static :=
  let st := if state = 0 then { list_index := 0, len := text.length } else st
  let r := name_loop text st.len (command_vec.drop st.list_index) st.list_index
  (r.1, { list_index := r.2, len := st.len })

/-- The function `option_generator(text, state)` over the global `option_vec`,
with its statics made explicit. -/
def option_generator (option_vec : List cmdopt) (text : string) (state : Int)
    (st : generator_static) : Option string × generator_static :=
  let st := if state = 0 then { list_index := 0, len := text.length } else st
  let r := name_loop text st.len (option_vec.drop st.list_index) st.list_index
  (r.1, { list_index := r.2, len := st.len })

/-- The readline function `rl_completion_matches(text, entry_func)`: it calls
the generator with state 0, then with 1, 2, ... until the generator returns
`NULL`, and collects the results.  (Readline returns `NULL` when the list is
empty and otherwise puts the common prefix of the results in front; only the
list of results is kept here.)  `calls` bounds the number of calls of the
generator; `none` means that the bound, or the fuel of the generator, was
reached before a `NULL`. -/
def rl_completion_matches {σ : Type}
    (entry_func : Int → σ → Option (Option string × σ)) :
    Nat → Int → σ → Option (List string × σ)
  | 0, _, _ => none
  | calls + 1, state, st =>
    match entry_func state st with
    | none => none
    | some (none, st1) => some ([], st1)
    | some (some name, st1) =>
      match rl_completion_matches entry_func calls (state + 1) st1 with
      | none => none
      | some (names, st2) => some (name :: names, st2)

/-! ## `interactive_completion` -/

/-- The generator handed to `rl_completion_matches`. -/
inductive entry_function where
  | command_generator | option_generator | probe_generator
  deriving DecidableEq, Repr

/-- The file-level globals and function statics that completion reads and
writes. -/
structure completion_globals where
  command_vec : List cmdopt
  option_command_vec : List cmdopt
  option_vec : List cmdopt
  probe_map : match_item_map
  saved_token : string
  command_static : generator_static
  option_static : generator_static
  stack : probe_stack
  rl_attempted_completion_over : Int

/-- What a call of `interactive_completion` leaves behind: the list of matches it
returns (`[]` for `NULL`), the generator it ran, if any, and the globals. -/
structure completion_result where
  match_list : List string
  entry_func : Option entry_function
  globals : completion_globals

/-- The call `rl_completion_matches(text, command_generator)`. -/
def complete_command (fuel : Nat) (g : completion_globals) (text : string) :
    Option completion_result :=
  (rl_completion_matches
      (fun state st => some (command_generator g.command_vec text state st))
      fuel 0 g.command_static).map
    (fun r => { match_list := r.1, entry_func := some .command_generator,
                globals := { g with command_static := r.2 } })

/-- The call `rl_completion_matches(text, option_generator)`. -/
def complete_option (fuel : Nat) (g : completion_globals) (text : string) :
    Option completion_result :=
  (rl_completion_matches
      (fun state st => some (option_generator g.option_vec text state st))
      fuel 0 g.option_static).map
    (fun r => { match_list := r.1, entry_func := some .option_generator,
                globals := { g with option_static := r.2 } })

/-- The call `rl_completion_matches(text, probe_generator)`. -/
def complete_probe (fuel : Nat) (g : completion_globals) (text : string) :
    Option completion_result :=
  (rl_completion_matches
      (fun state st => probe_generator g.probe_map g.saved_token fuel text state st)
      fuel 0 g.stack).map
    (fun r => { match_list := r.1, entry_func := some .probe_generator,
                globals := { g with stack := r.2 } })

/-- The function `interactive_completion(text, start, end)`; `rl_line_buffer`
is readline's line.  `fuel` bounds the loops of the generators and of
`rl_completion_matches`, `none` meaning it ran out. -/
def interactive_completion (fuel : Nat) (g : completion_globals)
    (rl_line_buffer text : string) (start : Int) : Option completion_result :=
  let g := { g with rl_attempted_completion_over := 1 }
  if start = 0 then complete_command fuel g text
  else
    let tokens := tokenize rl_line_buffer " \t".toList
    if tokens.length = 0 then some { match_list := [], entry_func := none, globals := g }
    else if tokens.length ≤ 2
        ∧ g.option_command_vec.any (fun c => decide (c.name = tokens.headD [])) then
      complete_option fuel g text
    else if 2 ≤ tokens.length ∧ tokens.headD [] = "add".toList then
      if tokens.getD 1 [] = "probe".toList then
        let g := { g with saved_token := if 3 ≤ tokens.length then tokens.getD 2 [] else [] }
        complete_probe fuel g text
      else some { match_list := [], entry_func := none, globals := g }
    else if tokens.length = 2
        ∧ (tokens.headD [] = "load".toList ∨ tokens.headD [] = "save".toList) then
      some { match_list := [], entry_func := none,
             globals := { g with rl_attempted_completion_over := 0 } }
    else some { match_list := [], entry_func := none, globals := g }

/-- The globals as `interactive_mode` has set them up before its loop, for a
given `probe_map`; the statics are zero-initialised. -/
def initial_globals (probe_map : match_item_map) : completion_globals :=
  { command_vec := command_vec, option_command_vec := option_command_vec,
    option_vec := option_vec, probe_map := probe_map, saved_token := [],
    command_static := { list_index := 0, len := 0 },
    option_static := { list_index := 0, len := 0 },
    stack := [], rl_attempted_completion_over := 0 }

/-! ## `load` and `save` -/

/-- The loop `while (getline(f, line)) script_vec.push_back(line)` over the
remaining characters of the file; `cur` is the line being read.  A `getline`
that meets the end of the file after at least one character still delivers
its line; one that extracts nothing fails and ends the loop. -/
def getline_loop : string → string → List string
  | [], cur => if cur.isEmpty then [] else [cur]
  | c :: cs, cur =>
    if c = '\n' then cur :: getline_loop cs []
    else getline_loop cs (cur ++ [c])

/-- The files the two commands touch: the contents of those that open for
reading, and which names open for writing. -/
structure file_system where
  contents : string → Option string
  writable : string → Bool

/-- Console output of the handlers, one entry per message. -/
inductive message where
  | file_must_be_specified
  | interactive_usage
  | open_for_reading_failed (file : string)
  | open_for_writing_failed (file : string)
  | invalid_command
  | invalid_option_name
  | invalid_script_line_value
  | no_line (val : Int)
  | invalid_last_pass
  | invalid_verbose
  | invalid_target_pid
  | pid_and_cmd_together
  | line (text : string)
  | undefined_command (token : string)
  | no_script_specified
  | explain_auto_options
  | query_not_terminal (def_answer : Char)
  | query_eof (def_answer : Char)
  | please_answer
  | mkstemp_failed
  | write_failed
  | lseek_failed
  | fdopen_failed
  deriving DecidableEq

/-- The state a command handler works on: the global `script_vec`, the files
and the messages printed so far. -/
structure handler_state where
  script_vec : List string
  files : file_system
  output : List message

/-- The member `load_cmd::handler`; the Boolean is the value returned. -/
def load_cmd_handler (h : handler_state) (tokens : List string) :
    handler_state × Bool :=
  if tokens.length ≠ 2 then
    ({ h with output := h.output ++ [.file_must_be_specified, .interactive_usage] }, false)
  else
    match h.files.contents (tokens.getD 1 []) with
    | none =>
      ({ h with output := h.output ++ [.open_for_reading_failed (tokens.getD 1 [])] }, false)
    | some text =>
      ({ h with script_vec := h.script_vec ++ getline_loop text [] }, false)

/-- The member `save_cmd::handler`; the Boolean is the value returned.  The
file receives `join(script_vec, "\n")` followed by `endl`. -/
def save_cmd_handler (h : handler_state) (tokens : List string) :
    handler_state × Bool :=
  if tokens.length ≠ 2 then
    ({ h with output := h.output ++ [.file_must_be_specified, .interactive_usage] }, false)
  else if h.files.writable (tokens.getD 1 []) = false then
    ({ h with output := h.output ++ [.open_for_writing_failed (tokens.getD 1 [])] }, false)
  else
    let script := join h.script_vec "\n".toList
    ({ h with files :=
        { h.files with
          contents := fun name =>
            if name = tokens.getD 1 [] then some (script ++ "\n".toList)
            else h.files.contents name } }, false)

/-! ## Numbers read from tokens -/

/-- The largest `long`, on the LP64 targets the tool is built for. -/
def LONG_MAX : Int := 2 ^ 63 - 1

/-- The smallest `long`. -/
def LONG_MIN : Int := -(2 ^ 63)

/-- The largest `unsigned long` and `size_t`. -/
def ULONG_MAX : Int := 2 ^ 64 - 1

/-- The value `errno` takes when a conversion overflows. -/
def ERANGE : Int := 34

/-- The C function `isspace` in the C locale. -/
def isspace (c : Char) : Bool :=
  c == ' ' || c == '\t' || c == '\n' || c == Char.ofNat 11 || c == Char.ofNat 12
    || c == '\r'

/-- The number a run of decimal digits stands for. -/
def decimal_value (digits : string) : Nat :=
  digits.foldl (fun acc c => 10 * acc + (c.toNat - '0'.toNat)) 0

/-- How `strtol` and `strtoul` read a text in base 10: white space is skipped,
then comes an optional sign, then the longest run of digits; `rest` is what
follows the digits. -/
structure scanned_number where
  negative : Bool
  digits : string
  rest : string

/-- The scan of `nptr` by `strtol` and `strtoul`. -/
def scan_number (nptr : string) : scanned_number :=
  let body := nptr.dropWhile isspace
  let signed : Bool × string :=
    match body with
    | '-' :: r => (true, r)
    | '+' :: r => (false, r)
    | _ => (false, body)
  { negative := signed.1, digits := signed.2.takeWhile Char.isDigit,
    rest := signed.2.dropWhile Char.isDigit }

/-- What a call `val = strtol(nptr, &end, 10)` made with `errno = 0` leaves:
the value, the text at `end`, and `errno`. -/
structure strtol_result where
  val : Int
  endptr : string
  errno : Int
  deriving DecidableEq

/-- The C library function `strtol(nptr, &end, 10)` called with `errno = 0`.
Without a digit nothing is converted: the value is 0 and `end` is `nptr`.  A
value outside `long` is replaced by the nearest bound with `errno = ERANGE`. -/
def strtol (nptr : string) : strtol_result :=
  let sc := scan_number nptr
  if sc.digits.isEmpty then { val := 0, endptr := nptr, errno := 0 }
  else
    let v : Int :=
      if sc.negative then -(decimal_value sc.digits : Int) else (decimal_value sc.digits : Int)
    if v > LONG_MAX then { val := LONG_MAX, endptr := sc.rest, errno := ERANGE }
    else if v < LONG_MIN then { val := LONG_MIN, endptr := sc.rest, errno := ERANGE }
    else { val := v, endptr := sc.rest, errno := 0 }

/-- The C library function `strtoul(nptr, &end, 10)` called with `errno = 0`;
`val` is the `unsigned long` result.  A magnitude above `ULONG_MAX` gives
`ULONG_MAX` with `errno = ERANGE`; a minus sign negates in `unsigned long`. -/
def strtoul (nptr : string) : strtol_result :=
  let sc := scan_number nptr
  if sc.digits.isEmpty then { val := 0, endptr := nptr, errno := 0 }
  else
    let v : Int := (decimal_value sc.digits : Int)
    if v > ULONG_MAX then { val := ULONG_MAX, endptr := sc.rest, errno := ERANGE }
    else { val := if sc.negative then (-v) % 2 ^ 64 else v, endptr := sc.rest, errno := 0 }

/-- The text `operator<<` writes for an integer. -/
def decimal_text (v : Int) : string :=
  if v < 0 then '-' :: Nat.toDigits 10 v.natAbs else Nat.toDigits 10 v.toNat

/-- The text `operator<<` writes for a `bool`. -/
def bool_text (b : Bool) : string := if b then "1".toList else "0".toList

/-! ## Faults -/

/-- The ways a handler can fail to return: an exception, or an access that the
language leaves undefined. -/
inductive fault where
  | out_of_range
  | vector_index
  | erase_at_end
  deriving DecidableEq, Repr

/-- The access `tokens[i]` of a `vector<string>`: defined below `size()`. -/
def vector_at (tokens : List string) (i : Nat) : Except fault string :=
  match tokens.get? i with
  | some t => .ok t
  | none => .error .vector_index

/-- The member `s.erase(pos, n)` of `std::string`: it throws
`std::out_of_range` when `pos > size()`. -/
def string_erase (s : string) (pos n : Nat) : Except fault string :=
  if pos > s.length then .error .out_of_range
  else .ok (s.take pos ++ s.drop (pos + n))

/-- The member `v.erase(v.begin() + i)` of a vector: defined for `i` below
`size()`. -/
def vector_erase (v : List string) (i : Nat) : Except fault (List string) :=
  if i < v.length then .ok (v.eraseIdx i) else .error .erase_at_end

/-! ## The session -/

/-- The values of `systemtap_session::dump_mode` that the file uses. -/
inductive dump_mode_value where
  | dump_none | dump_probe_types | dump_probe_aliases
  deriving DecidableEq, Repr

/-- The fields of `systemtap_session` that the file reads or writes.
`verbose` and `perpass_verbose[5]` are `unsigned`, `last_pass` and
`target_pid` are `int`. -/
structure systemtap_session where
  keep_tmpdir : Bool
  last_pass : Int
  verbose : Int
  perpass_verbose : List Int
  guru_mode : Bool
  suppress_warnings : Bool
  panic_warnings : Bool
  timing : Bool
  unoptimized : Bool
  target_pid : Int
  cmd : string
  cmdline_script : string
  have_script : Bool
  module_name : string
  uprobes_path : string
  dump_mode : dump_mode_value
  deriving DecidableEq

/-- What an option handler leaves: the session, the messages it printed and
the value it returned; or a fault. -/
abbrev option_result := Except fault (systemtap_session × List message × Bool)

/-- The handler shared in shape by the six flag options: `set` stores
`tokens[2] != "0"`, `show` prints the flag. -/
def flag_handler (name : string) (get : systemtap_session → Bool)
    (put : systemtap_session → Bool → systemtap_session)
    (s : systemtap_session) (tokens : List string) : option_result := do
  let t0 ← vector_at tokens 0
  if t0 = "set".toList then do
    let t2 ← vector_at tokens 2
    pure (put s (decide (t2 ≠ "0".toList)), [], false)
  else
    pure (s, [.line (name ++ ": ".toList ++ bool_text (get s))], false)

/-- The member `keep_tmpdir_opt::handler`. -/
def keep_tmpdir_opt_handler : systemtap_session → List string → option_result :=
  flag_handler cmdopt.keep_tmpdir_opt.name (fun s => s.keep_tmpdir)
    (fun s b => { s with keep_tmpdir := b })

/-- The member `guru_mode_opt::handler`. -/
def guru_mode_opt_handler : systemtap_session → List string → option_result :=
  flag_handler cmdopt.guru_mode_opt.name (fun s => s.guru_mode)
    (fun s b => { s with guru_mode := b })

/-- The member `suppress_warnings_opt::handler`. -/
def suppress_warnings_opt_handler : systemtap_session → List string → option_result :=
  flag_handler cmdopt.suppress_warnings_opt.name (fun s => s.suppress_warnings)
    (fun s b => { s with suppress_warnings := b })

/-- The member `panic_warnings_opt::handler`. -/
def panic_warnings_opt_handler : systemtap_session → List string → option_result :=
  flag_handler cmdopt.panic_warnings_opt.name (fun s => s.panic_warnings)
    (fun s b => { s with panic_warnings := b })

/-- The member `timing_opt::handler`. -/
def timing_opt_handler : systemtap_session → List string → option_result :=
  flag_handler cmdopt.timing_opt.name (fun s => s.timing)
    (fun s b => { s with timing := b })

/-- The member `unoptimized_opt::handler`. -/
def unoptimized_opt_handler : systemtap_session → List string → option_result :=
  flag_handler cmdopt.unoptimized_opt.name (fun s => s.unoptimized)
    (fun s b => { s with unoptimized := b })

/-- The member `last_pass_opt::handler`. -/
def last_pass_opt_handler (s : systemtap_session) (tokens : List string) :
    option_result := do
  let t0 ← vector_at tokens 0
  if t0 = "set".toList then do
    let t2 ← vector_at tokens 2
    let r := strtol t2
    if r.errno ≠ 0 ∨ r.endptr ≠ [] ∨ r.val < 1 ∨ r.val > 5 then
      pure (s, [.invalid_last_pass], false)
    else
      pure ({ s with last_pass := r.val }, [], false)
  else
    pure (s, [.line (cmdopt.last_pass_opt.name ++ ": ".toList ++ decimal_text s.last_pass)],
      false)

/-- The member `verbose_opt::handler`; the `long` value is stored in
`unsigned` fields. -/
def verbose_opt_handler (s : systemtap_session) (tokens : List string) :
    option_result := do
  let t0 ← vector_at tokens 0
  if t0 = "set".toList then do
    let t2 ← vector_at tokens 2
    let r := strtol t2
    if r.errno ≠ 0 ∨ r.endptr ≠ [] ∨ r.val < 0 then
      pure (s, [.invalid_verbose], false)
    else
      pure ({ s with
          verbose := r.val % 2 ^ 32,
          perpass_verbose :=
            (List.range 5).foldl (fun a i => a.set i (r.val % 2 ^ 32)) s.perpass_verbose },
        [], false)
  else
    pure (s, [.line (cmdopt.verbose_opt.name ++ ": ".toList ++ decimal_text s.verbose)],
      false)

/-- The member `target_pid_opt::handler`. -/
def target_pid_opt_handler (s : systemtap_session) (tokens : List string) :
    option_result := do
  let t0 ← vector_at tokens 0
  if t0 = "set".toList then do
    if s.cmd ≠ [] then
      pure (s, [.pid_and_cmd_together], false)
    else do
      let t2 ← vector_at tokens 2
      let r := strtoul t2
      if r.errno ≠ 0 ∨ r.endptr ≠ [] ∨ r.val < 1 ∨ r.val > 5 then
        pure (s, [.invalid_target_pid], false)
      else
        pure ({ s with target_pid := r.val }, [], false)
  else
    pure (s, [.line (cmdopt.target_pid_opt.name ++ ": ".toList ++ decimal_text s.target_pid)],
      false)

/-- The loop of `cmd_opt::handler` that pastes the tokens from the third on
back together, a blank before each but the first. -/
def paste_tokens (tokens : List string) : string :=
  (tokens.drop 2).foldl
    (fun cmd tok => (if cmd.isEmpty then cmd else cmd ++ " ".toList) ++ tok) []

/-- The member `cmd_opt::handler`.  `s.cmd[0]` of an empty string is the
terminator; character 39 is the single quote; the second `erase` is called at
position `size() - 1` computed in `size_t`. -/
def cmd_opt_handler (s : systemtap_session) (tokens : List string) :
    option_result := do
  let t0 ← vector_at tokens 0
  if t0 = "set".toList then do
    if s.target_pid ≠ 0 then
      pure (s, [.pid_and_cmd_together], false)
    else do
      let cmd := paste_tokens tokens
      let first := cmd.headD (Char.ofNat 0)
      if (first = '"' ∨ first = Char.ofNat 39) ∧ first = cmd.getLastD (Char.ofNat 0) then do
        let cmd1 ← string_erase cmd 0 1
        let cmd2 ← string_erase cmd1 (((cmd1.length : Int) - 1) % 2 ^ 64).toNat 1
        pure ({ s with cmd := cmd2 }, [], false)
      else
        pure ({ s with cmd := cmd }, [], false)
  else
    pure (s, [.line (cmdopt.cmd_opt.name ++ ": \"".toList ++ s.cmd ++ "\"".toList)], false)

/-- The virtual call `(*it)->handler(s, tokens)` on an object of `option_vec`. -/
def option_handler (opt : cmdopt) (s : systemtap_session) (tokens : List string) :
    option_result :=
  match opt with
  | .keep_tmpdir_opt => keep_tmpdir_opt_handler s tokens
  | .last_pass_opt => last_pass_opt_handler s tokens
  | .verbose_opt => verbose_opt_handler s tokens
  | .guru_mode_opt => guru_mode_opt_handler s tokens
  | .suppress_warnings_opt => suppress_warnings_opt_handler s tokens
  | .panic_warnings_opt => panic_warnings_opt_handler s tokens
  | .timing_opt => timing_opt_handler s tokens
  | .unoptimized_opt => unoptimized_opt_handler s tokens
  | .target_pid_opt => target_pid_opt_handler s tokens
  | .cmd_opt => cmd_opt_handler s tokens
  | _ => pure (s, [], false)

/-- The search "for the option to display" of `set_cmd::handler` and
`show_cmd::handler`: the first option of `option_vec` named `tokens[1]`. -/
def find_option (name : string) : Option cmdopt :=
  option_vec.find? (fun opt => decide (name = opt.name))

/-- The member `set_cmd::handler`. -/
def set_cmd_handler (s : systemtap_session) (tokens : List string) :
    option_result :=
  if tokens.length < 3 then
    pure (s, [.invalid_command, .interactive_usage], false)
  else do
    let t1 ← vector_at tokens 1
    match find_option t1 with
    | some opt => do
      let r ← option_handler opt s tokens
      pure (r.1, r.2.1, false)
    | none => pure (s, [.invalid_option_name, .interactive_usage], false)

/-- The loop "Show all options" of `show_cmd::handler` over what is left of
`option_vec`. -/
def show_all (tokens : List string) :
    List cmdopt → systemtap_session → List message → option_result
  | [], s, out => pure (s, out, false)
  | opt :: rest, s, out => do
    let r ← option_handler opt s tokens
    show_all tokens rest r.1 (out ++ r.2.1)

/-- The member `show_cmd::handler`. -/
def show_cmd_handler (s : systemtap_session) (tokens : List string) :
    option_result :=
  if tokens.length = 1 then show_all tokens option_vec s []
  else if tokens.length ≠ 2 then
    pure (s, [.invalid_command, .interactive_usage], false)
  else do
    let t1 ← vector_at tokens 1
    match find_option t1 with
    | some opt => do
      let r ← option_handler opt s tokens
      pure (r.1, r.2.1, false)
    | none => pure (s, [.invalid_option_name, .interactive_usage], false)

/-! ## `query` -/

/-- The `enum query_default`. -/
inductive query_default where
  | no_default | default_yes | default_no
  deriving DecidableEq, Repr

/-- What `query` leaves: the value returned, the responses not yet read and
the messages written to `clog`. -/
structure query_result where
  retval : Int
  responses : List string
  output : List message

/-- The `while (1)` loop of `query`.  The list holds the lines that `readline`
delivers in turn; after the last one `readline` returns `NULL` (C-d).
`response[0]` of an empty line is the terminator. -/
def query_loop (qdefault : query_default) (def_value : Int)
    (def_answer not_def_answer : Char) : List string → List message → query_result
  | [], out =>
    { retval := def_value, responses := [], output := out ++ [.query_eof def_answer] }
  | response :: rest, out =>
    let answer := (response.headD (Char.ofNat 0)).toUpper
    if answer = not_def_answer then
      { retval := if def_value = 0 then 1 else 0, responses := rest, output := out }
    else if answer = def_answer ∨ (qdefault ≠ .no_default ∧ answer = Char.ofNat 0) then
      { retval := def_value, responses := rest, output := out }
    else
      query_loop qdefault def_value def_answer not_def_answer rest (out ++ [.please_answer])

/-- The function `query(prompt, qdefault)`; `isatty` is `isatty(fileno(stdin))`
and `responses` what `readline` will deliver. -/
def query (isatty : Bool) (qdefault : query_default) (responses : List string) :
    query_result :=
  let def_value : Int := if qdefault = .default_no then 0 else 1
  let def_answer : Char := if qdefault = .default_no then 'N' else 'Y'
  let not_def_answer : Char := if qdefault = .default_no then 'Y' else 'N'
  if isatty = false then
    { retval := def_value, responses := responses,
      output := [.query_not_terminal def_answer] }
  else
    query_loop qdefault def_value def_answer not_def_answer responses []

/-! ## The command handlers -/

/-- What lies outside the file and decides how `run` and `edit` go: the
terminal, the forked pipeline and the calls of the operating system. -/
structure external where
  isatty : Bool
  fork_read : systemtap_session → Int × string
  pending_interrupts : Bool
  pass_5 : systemtap_session → systemtap_session
  mkstemp_ok : Bool
  write_ok : Bool
  editor_status : Int
  editor : string → string
  lseek_ok : Bool
  fdopen_ok : Bool

/-- The state of the interactive loop: the session, the script buffer with the
files and the console output, and the lines still to come from the terminal
for `query`. -/
structure repl_state where
  session : systemtap_session
  handler : handler_state
  responses : List string

/-- Appends messages to the console output. -/
def repl_state.print (st : repl_state) (msgs : List message) : repl_state :=
  { st with handler := { st.handler with output := st.handler.output ++ msgs } }

/-- Replaces the script buffer. -/
def repl_state.set_script (st : repl_state) (script_vec : List string) : repl_state :=
  { st with handler := { st.handler with script_vec := script_vec } }

/-- The member `help_cmd::handler`. -/
def help_cmd_handler (st : repl_state) : repl_state × Bool :=
  (st.print [.interactive_usage], false)

/-- The width `list_cmd::handler` computes for the line numbers. -/
def list_width (size : Nat) : Nat :=
  let w1 : Nat × Nat := if size ≥ 10000 then (size / 10000, 1 + 4) else (size, 1)
  let w2 : Nat × Nat := if w1.1 ≥ 100 then (w1.1 / 100, w1.2 + 2) else w1
  if w2.1 ≥ 10 then w2.2 + 1 else w2.2

/-- The text written by `setw(width) << i`: the number, blanks in front up to
the width. -/
def setw_text (width : Nat) (i : Nat) : string :=
  List.replicate (width - (Nat.toDigits 10 i).length) ' ' ++ Nat.toDigits 10 i

/-- The loop of `list_cmd::handler` from line number `i` on. -/
def list_lines (width : Nat) : List string → Nat → List message
  | [], _ => []
  | text :: rest, i =>
    .line (setw_text width i ++ ": ".toList ++ text) :: list_lines width rest (i + 1)

/-- The member `list_cmd::handler`. -/
def list_cmd_handler (st : repl_state) : repl_state × Bool :=
  (st.print (list_lines (list_width st.handler.script_vec.length) st.handler.script_vec 1),
    false)

/-- The member `quit_cmd::handler`. -/
def quit_cmd_handler (st : repl_state) : repl_state × Bool :=
  (st, true)

/-- The member `add_cmd::handler`: the first token is erased and the others,
joined by blanks, are pushed on `script_vec`. -/
def add_cmd_handler (st : repl_state) (tokens : List string) : repl_state × Bool :=
  (st.set_script (st.handler.script_vec ++ [join (tokens.drop 1) " ".toList]), false)

/-- The member `delete_cmd::handler`.  `item_num` is `val - 1` in `size_t`. -/
def delete_cmd_handler (ext : external) (st : repl_state) (tokens : List string) :
    Except fault (repl_state × Bool) :=
  if tokens.length = 1 then
    let q := query ext.isatty .no_default st.responses
    let st1 := ({ st with responses := q.responses } : repl_state).print q.output
    if q.retval ≠ 0 then pure (st1.set_script [], false)
    else pure (st1, false)
  else if tokens.length ≠ 2 then
    pure (st.print [.invalid_command, .interactive_usage], false)
  else do
    let t1 ← vector_at tokens 1
    let r := strtol t1
    if r.errno ≠ 0 ∨ r.endptr ≠ [] ∨ r.val < 0 then
      pure (st.print [.invalid_script_line_value], false)
    else
      let item_num : Int := (r.val - 1) % 2 ^ 64
      if item_num > st.handler.script_vec.length then
        pure (st.print [.no_line r.val], false)
      else do
        let v ← vector_erase st.handler.script_vec item_num.toNat
        pure (st.set_script v, false)

/-- The extraction `ss >> target` of a `string`: white space is skipped; at the
end of the stream the extraction fails and the target is left as it was,
otherwise the target becomes the run of characters up to the next white
space.  The result is the target, the rest of the stream and whether the
stream is still good. -/
def stream_extract (stream target : string) : string × string × Bool :=
  let body := stream.dropWhile isspace
  if body.isEmpty then (target, [], false)
  else (body.takeWhile (fun c => !isspace c), body.dropWhile (fun c => !isspace c), true)

/-- The function `forked_passes_0_4` as the parent process runs it;
`ext.fork_read` stands for `stap_fork_read` together with the child: it gives
the exit status of the child and the text the child wrote to the pipe. -/
def forked_passes_0_4 (ext : external) (s : systemtap_session) :
    Int × systemtap_session :=
  let ret := ext.fork_read s
  if s.last_pass > 4 ∧ ret.1 = 0 then
    let m := stream_extract ret.2 s.module_name
    let u := if m.2.2 then stream_extract m.2.1 s.uprobes_path else (s.uprobes_path, m.2.1, false)
    (ret.1, { s with module_name := m.1, uprobes_path := u.1 })
  else (ret.1, s)

/-- The member `run_cmd::handler`; `explain_auto_options` and `reset_tmp_dir`
act outside the fields kept here, the first is recorded as a message. -/
def run_cmd_handler (ext : external) (st : repl_state) : repl_state × Bool :=
  if st.handler.script_vec.isEmpty then
    (st.print [.no_script_specified], false)
  else
    let s0 := { st.session with
      cmdline_script := join st.handler.script_vec "\n".toList, have_script := true }
    let r := forked_passes_0_4 ext s0
    let out : List message :=
      if r.1 ≠ 0 ∨ r.2.perpass_verbose.headD 0 ≥ 1 then [.explain_auto_options] else []
    let s1 :=
      if r.1 = 0 ∧ r.2.last_pass ≥ 5 ∧ ext.pending_interrupts = false then ext.pass_5 r.2
      else r.2
    (({ st with session := s1 } : repl_state).print out, false)

/-- The loop `while (fgets(line, sizeof(line), fp) != NULL)` of
`edit_cmd::handler` with the buffer `char line[size]`: a call of `fgets` ends
after a newline, which is then zapped, or after `size - 1` characters, or at
the end of the file.  `cur` is what the current call has read. -/
def fgets_loop (size : Nat) : string → string → List string
  | [], cur => if cur.isEmpty then [] else [cur]
  | c :: cs, cur =>
    if c = '\n' then cur :: fgets_loop size cs []
    else if cur.length + 1 = size - 1 then (cur ++ [c]) :: fgets_loop size cs []
    else fgets_loop size cs (cur ++ [c])

/-- The member `edit_cmd::handler`; the temporary file is seen through what
is written to it and what the editor leaves in it. -/
def edit_cmd_handler (ext : external) (st : repl_state) : repl_state × Bool :=
  if ext.mkstemp_ok = false then (st.print [.mkstemp_failed], false)
  else if ¬ st.handler.script_vec.isEmpty ∧ ext.write_ok = false then
    (st.print [.write_failed], false)
  else if ext.editor_status ≠ 0 then (st, false)
  else if ext.lseek_ok = false then (st.print [.lseek_failed], false)
  else
    let st1 := st.set_script []
    if ext.fdopen_ok = false then (st1.print [.fdopen_failed], false)
    else
      let written : string :=
        if st.handler.script_vec.isEmpty then []
        else join st.handler.script_vec "\n".toList
      (st1.set_script (fgets_loop 2048 (ext.editor written) []), false)

/-- Carries an option handler's result over to the state of the loop. -/
def lift_option (st : repl_state) (r : option_result) :
    Except fault (repl_state × Bool) := do
  let v ← r
  pure (({ st with session := v.1 } : repl_state).print v.2.1, v.2.2)

/-- Carries the result of `load` or `save` over to the state of the loop. -/
def lift_handler (st : repl_state) (r : handler_state × Bool) : repl_state × Bool :=
  ({ st with handler := r.1 }, r.2)

/-- The virtual call `(*it)->handler(s, tokens)` on an object of
`command_vec`. -/
def command_handler (ext : external) (cmd : cmdopt) (st : repl_state)
    (tokens : List string) : Except fault (repl_state × Bool) :=
  match cmd with
  | .add_cmd => pure (add_cmd_handler st tokens)
  | .delete_cmd => delete_cmd_handler ext st tokens
  | .list_cmd => pure (list_cmd_handler st)
  | .edit_cmd => pure (edit_cmd_handler ext st)
  | .load_cmd => pure (lift_handler st (load_cmd_handler st.handler tokens))
  | .save_cmd => pure (lift_handler st (save_cmd_handler st.handler tokens))
  | .run_cmd_ => pure (run_cmd_handler ext st)
  | .set_cmd => lift_option st (set_cmd_handler st.session tokens)
  | .show_cmd => lift_option st (show_cmd_handler st.session tokens)
  | .help_cmd => pure (help_cmd_handler st)
  | .quit_cmd => pure (quit_cmd_handler st)
  | opt => lift_option st (option_handler opt st.session tokens)

/-! ## The loop of `interactive_mode` -/

/-- What the search of `command_vec` leaves: the state, `input_handled` and
`quit`. -/
structure dispatch_result where
  state : repl_state
  input_handled : Bool
  quit : Bool

/-- The block `if (tokens.size())` of the loop: the first command of
`command_vec` named `tokens[0]` is run. -/
def dispatch (ext : external) (st : repl_state) (tokens : List string) :
    Except fault dispatch_result :=
  if tokens.length ≠ 0 then do
    let t0 ← vector_at tokens 0
    match command_vec.find? (fun cmd => decide (t0 = cmd.name)) with
    | some cmd => do
      let r ← command_handler ext cmd st tokens
      pure { state := r.1, input_handled := true, quit := r.2 }
    | none => pure { state := st, input_handled := false, quit := false }
  else pure { state := st, input_handled := false, quit := false }

/-- One round of the `while (1)` loop of `interactive_mode` for the line that
`readline` returned (`none` for `NULL`).  The Boolean tells whether the loop
was left by `break`. -/
def interactive_mode_round (ext : external) (st : repl_state)
    (line_tmp : Option string) : Except fault (repl_state × Bool) :=
  match line_tmp with
  | none => pure (st, false)
  | some line =>
    if line.isEmpty then pure (st, false)
    else do
      let tokens := tokenize line " \t".toList
      let d ← dispatch ext st tokens
      if d.input_handled ∧ d.quit then pure (d.state, true)
      else if d.input_handled = false then do
        let t0 ← vector_at tokens 0
        pure (d.state.print [.undefined_command t0], false)
      else pure (d.state, false)

/-! ## The child of `forked_passes_0_4` and the bootstrap of `interactive_mode` -/

/-- The branch `if (ret.first)` of `forked_passes_0_4`, which the child
runs: the status it exits with and the text it writes to the pipe.
`passes_0_4` gives the return code and the session of the child after the
passes, or `none` when it throws; then `rc` keeps its value 1 and nothing is
written. -/
def forked_child (passes_0_4 : systemtap_session → Option (Int × systemtap_session))
    (s : systemtap_session) : Int × string :=
  match passes_0_4 s with
  | none => (1, [])
  | some (rc, sc) =>
    (if rc ≠ 0 then 1 else 0,
     if rc = 0 ∧ sc.last_pass > 4 then
       sc.module_name ++ "\n".toList ++ sc.uprobes_path ++ "\n".toList
     else [])

/-- What lies outside the file during the bootstrap: the set-up of the
compile server (`query_server_status`, `manage_server_trust`,
`init_try_server`), the two direct calls of `passes_0_4`, each giving the
session it leaves and the text it wrote to `cout`, and
`systemtap_session::clear_script_data`. -/
structure bootstrap_external where
  server_setup : systemtap_session → systemtap_session
  passes_0_4_probe_types : systemtap_session → systemtap_session × string
  passes_0_4_probe_aliases : systemtap_session → systemtap_session × string
  clear_script_data : systemtap_session → systemtap_session

/-- The loop `for (unsigned i=0; i<5; i++) s.perpass_verbose[i] = value(i)`. -/
def assign_perpass_verbose (value : Nat → Int) (perpass_verbose : List Int) : List Int :=
  (List.range 5).foldl (fun a i => a.set i (value i)) perpass_verbose

/-- The part of `interactive_mode` from "Save the original state of the
session object" to `s.clear_script_data()`: the session and `probe_map` it
leaves.  The lines of a captured stream are those `getline` delivers; the
empty ones are skipped by `process_probe_list`. -/
def interactive_mode_bootstrap (b : bootstrap_external) (s : systemtap_session)
    (probe_map : match_item_map) : systemtap_session × match_item_map :=
  let saved_verbose := s.verbose
  let saved_perpass_verbose : Nat → Int := fun i => s.perpass_verbose.getD i 0
  let saved_last_pass := s.last_pass
  let s1 := b.server_setup s
  let s2 := { s1 with
    verbose := 0,
    perpass_verbose := assign_perpass_verbose (fun _ => 0) s1.perpass_verbose,
    dump_mode := .dump_probe_types,
    last_pass := 2 }
  let probes := b.passes_0_4_probe_types s2
  let probe_map1 := process_probe_list (getline_loop probes.2 []) true probe_map
  let s3 := { probes.1 with dump_mode := .dump_probe_aliases }
  let aliases := b.passes_0_4_probe_aliases s3
  let probe_map2 := process_probe_list (getline_loop aliases.2 []) false probe_map1
  let s4 := { aliases.1 with
    dump_mode := .dump_none,
    verbose := saved_verbose,
    perpass_verbose := assign_perpass_verbose saved_perpass_verbose aliases.1.perpass_verbose,
    last_pass := saved_last_pass }
  (b.clear_script_data s4, probe_map2)

/-! ## Definitions used to state the properties -/

/-- The first name of `l` that `text` starts, and what follows it in `l`. -/
def first_match (text : string) : List cmdopt → Option string × List cmdopt
  | [] => (none, [])
  | c :: rest =>
    if text.isPrefixOf c.name then (some c.name, rest) else first_match text rest

/-- The names of `vec` that `text` starts, in the order of `vec`. -/
def prefixed_names (text : string) (vec : List cmdopt) : List string :=
  (vec.map cmdopt.name).filter (fun n => text.isPrefixOf n)

mutual
/-- Number of nodes of the subtree of an item, itself included. -/
def item_size : match_item → Nat
  | .mk _ _ _ subs => 1 + map_size subs
/-- Number of nodes in the subtrees of a map. -/
def map_size : match_item_map → Nat
  | [] => 0
  | (_, mi) :: rest => item_size mi + map_size rest
end

mutual
/-- The dotted paths of the terminal nodes in the subtree of an item reached
under the path `pfx`, the item first, then its children in map order, each
with its own subtree before the next child. -/
def item_candidates (pfx : string) : match_item → List string
  | .mk _ _ terminal subs =>
    (if terminal then [pfx] else []) ++ map_candidates pfx subs
/-- The candidates of the children of a node reached under `pfx`. -/
def map_candidates (pfx : string) : match_item_map → List string
  | [] => []
  | (key, mi) :: rest =>
    item_candidates (child_path pfx key) mi ++ map_candidates pfx rest
end

/-- The candidates still to come from a stack, top first. -/
def stack_candidates : probe_stack → List string
  | [] => []
  | (pfx, mi) :: rest => item_candidates pfx mi ++ stack_candidates rest

/-- Number of nodes in the subtrees of the items on a stack. -/
def stack_size (stack : probe_stack) : Nat := map_size stack

/-- The stack that a call of `probe_generator` with state 0 starts from. -/
def initial_stack (probe_map : match_item_map) (saved_token text : string) : probe_stack :=
  push_partial_matches text (probe_descend (tokenize saved_token ".".toList) probe_map) []

/-- Ascending order of keys. -/
def key_lt (a b : string) : Prop := string_lt a b = true

mutual
/-- Every map below the item is in ascending key order. -/
def item_ordered : match_item → Prop
  | .mk _ _ _ subs => List.Chain' key_lt (subs.map Prod.fst) ∧ items_ordered subs
/-- Every item of the map satisfies `item_ordered`. -/
def items_ordered : match_item_map → Prop
  | [] => True
  | (_, mi) :: rest => item_ordered mi ∧ items_ordered rest
end

/-- The map and every map below it are in ascending key order. -/
def map_ordered (m : match_item_map) : Prop :=
  List.Chain' key_lt (m.map Prod.fst) ∧ items_ordered m

/-- Every way of walking a map along the segments of a path, entering at each
level a child whose `full_match` holds on the segment: the keys passed and the
node reached. -/
def full_match_walk : List string → match_item_map → List (List string × match_item)
  | [], _ => []
  | [seg], m => (m.filter (fun e => e.2.full_match seg)).map (fun e => ([e.1], e.2))
  | seg :: seg2 :: rest, m =>
    ((m.filter (fun e => e.2.full_match seg)).map
      (fun e => (full_match_walk (seg2 :: rest) e.2.sub_matches).map
        (fun r => (e.1 :: r.1, r.2)))).flatten

/-- The three lines of the completion example. -/
def example_probes : List string :=
  ["kernel.function(string)".toList, "kernel.trace(string)".toList,
   "process(number).function(string)".toList]

/-- A session as it may stand at the prompt: nothing set, all five passes
allowed. -/
def sample_session : systemtap_session :=
  { keep_tmpdir := false, last_pass := 5, verbose := 0,
    perpass_verbose := [0, 0, 0, 0, 0], guru_mode := false,
    suppress_warnings := false, panic_warnings := false, timing := false,
    unoptimized := false, target_pid := 0, cmd := [], cmdline_script := [],
    have_script := false, module_name := [], uprobes_path := [],
    dump_mode := .dump_none }

/-- Surroundings in which every call of the operating system succeeds, the
editor leaves the file as it is and the pipeline fails. -/
def sample_external : external :=
  { isatty := true, fork_read := fun _ => (1, []), pending_interrupts := false,
    pass_5 := fun s => s, mkstemp_ok := true, write_ok := true, editor_status := 0,
    editor := fun text => text, lseek_ok := true, fdopen_ok := true }

/-- A state of the loop with a script of two lines. -/
def sample_state : repl_state :=
  { session := sample_session,
    handler := { script_vec := ["probe begin".toList, "probe end".toList],
                 files := { contents := fun _ => none, writable := fun _ => true },
                 output := [] },
    responses := [] }

/-- The integer a text stands for when the whole of it is a decimal integer as
`strtol` reads one (white space, an optional sign, one or more digits and
nothing after them), without regard to the range of `long`. -/
def decimal_integer (text : string) : Option Int :=
  let sc := scan_number text
  if sc.digits.isEmpty ∨ sc.rest ≠ [] then none
  else some (if sc.negative then -(decimal_value sc.digits : Int) else decimal_value sc.digits)

/-- The session after a run of `set` commands, each given by its tokens. -/
def run_set_commands : List (List string) → systemtap_session → Except fault systemtap_session
  | [], s => pure s
  | tokens :: rest, s => do
    let r ← set_cmd_handler s tokens
    run_set_commands rest r.1

/-- The item stored under `key`, as `map.find(key)` gives it. -/
def map_find (m : match_item_map) (key : string) : Option match_item :=
  (m.find? (fun e => decide (e.1 = key))).map (fun e => e.2)

/-- The node reached from a map by a path of keys, one level a key. -/
def lookup_path : List string → match_item_map → Option match_item
  | [], _ => none
  | [key], m => map_find m key
  | key :: key2 :: rest, m =>
    match map_find m key with
    | some item => lookup_path (key2 :: rest) item.sub_matches
    | none => none

/-- Two nodes carry the same `match_text`, `regexp` and `terminal`. -/
def same_fields (a b : match_item) : Prop :=
  a.match_text = b.match_text ∧ a.regexp = b.regexp ∧ a.terminal = b.terminal

mutual
/-- The nodes of the subtree of an item in depth-first pre-order, each with
the keys on the path to it; `path` is the path to the item. -/
def subtree_nodes (path : List string) : match_item → List (List string × match_item)
  | .mk t r term subs => (path, .mk t r term subs) :: children_nodes path subs
/-- The nodes of the subtrees of the children of a node reached by `path`,
child after child in map order. -/
def children_nodes (path : List string) : match_item_map → List (List string × match_item)
  | [] => []
  | (key, mi) :: rest => subtree_nodes (path ++ [key]) mi ++ children_nodes path rest
end

/-- The terminal ones among a list of nodes, each as its keys joined by
dots. -/
def paths_of (nodes : List (List string × match_item)) : List string :=
  (nodes.filter (fun n => n.2.terminal)).map (fun n => join n.1 ".".toList)

/-- The candidates as the claim words them: of the children of `m` that
partially match `text`, in map order, and of all their descendants in
depth-first pre-order, the terminal ones, each as the keys from the child
down joined by dots. -/
def terminal_paths (m : match_item_map) (text : string) : List string :=
  paths_of (((m.filter (fun e => e.2.partial_match text)).map
      (fun e => subtree_nodes [e.1] e.2)).flatten)

/-- A line that `process_line` takes in without changing the map: its path
is there already, or it gives no path. -/
def line_present (line : string) (m : match_item_map) : Prop :=
  ∀ handle_regexps, process_line handle_regexps m line = m

/-- A response begins with `y` or `Y`. -/
def begins_yes (response : string) : Bool :=
  decide (response.head? = some 'y') || decide (response.head? = some 'Y')

/-- A response begins with `n` or `N`. -/
def begins_no (response : string) : Bool :=
  decide (response.head? = some 'n') || decide (response.head? = some 'N')

/-- A response that settles the question: one that begins with `y`, `Y`, `n`
or `N`, or, when a default was specified, an empty one.  After any other
response the question is asked again. -/
def is_answer (qdefault : query_default) (response : string) : Bool :=
  begins_yes response || begins_no response
    || (decide (qdefault ≠ .no_default) && response.isEmpty)

/-- The outcome "yes" in words: off a terminal and at the end of input
without an answer, yes unless the default is no; else the first response that
settles the question begins with `y` or `Y`, or is empty with the default
yes. -/
def answered_yes (isatty : Bool) (qdefault : query_default) (responses : List string) :
    Bool :=
  if isatty = false then decide (qdefault ≠ .default_no)
  else
    match responses.find? (is_answer qdefault) with
    | none => decide (qdefault ≠ .default_no)
    | some response =>
      begins_yes response || (response.isEmpty && decide (qdefault = .default_yes))

/-! ## Lemmas -/

theorem strncmp_eq_zero_iff (text : string) :
    ∀ name : string, strncmp name text text.length = 0 ↔ text.isPrefixOf name = true := by
  induction text with
  | nil => intro name; simp [strncmp]
  | cons b bs ih =>
    intro name
    cases name with
    | nil => simp [strncmp]
    | cons a as =>
      simp only [List.length_cons, strncmp, List.isPrefixOf]
      by_cases hab : a < b
      · have : b ≠ a := fun h => by subst h; exact lt_irrefl _ hab
        simp [hab, this]
      · by_cases hba : b < a
        · have : b ≠ a := fun h => by subst h; exact lt_irrefl _ hba
          simp [hab, hba, this]
        · have : b = a := le_antisymm (not_lt.mp hab) (not_lt.mp hba)
          simp [hab, hba, this, ih]

theorem name_loop_eq (vec : List cmdopt) (text : string) :
    ∀ (l : List cmdopt) (i : Nat), vec.drop i = l →
      (name_loop text text.length l i).1 = (first_match text l).1
      ∧ vec.drop (name_loop text text.length l i).2 = (first_match text l).2 := by
  intro l
  induction l with
  | nil => intro i h; simp [name_loop, first_match, h]
  | cons c rest ih =>
    intro i h
    have hrest : vec.drop (i + 1) = rest := by
      rw [← List.drop_drop, h]; rfl
    unfold name_loop first_match
    by_cases hp : text.isPrefixOf c.name = true
    · have h0 : strncmp c.name text text.length = 0 := (strncmp_eq_zero_iff text _).mpr hp
      simp [hp, h0, hrest]
    · have h0 : ¬ strncmp c.name text text.length = 0 :=
        fun h => hp ((strncmp_eq_zero_iff text _).mp h)
      simp only [hp, h0, if_false]
      exact ih (i + 1) hrest

theorem prefixed_names_cons (text : string) (c : cmdopt) (rest : List cmdopt) :
    prefixed_names text (c :: rest)
      = if text.isPrefixOf c.name then c.name :: prefixed_names text rest
        else prefixed_names text rest := by
  simp only [prefixed_names, List.map_cons, List.filter_cons]

theorem first_match_none (text : string) :
    ∀ l : List cmdopt, (first_match text l).1 = none → prefixed_names text l = [] := by
  intro l
  induction l with
  | nil => intro _; rfl
  | cons c rest ih =>
    intro h
    rw [prefixed_names_cons]
    unfold first_match at h
    split at h
    · cases h
    · rename_i hp
      rw [if_neg hp]
      exact ih h

theorem first_match_some (text : string) :
    ∀ (l : List cmdopt) (n : string), (first_match text l).1 = some n →
      prefixed_names text l = n :: prefixed_names text (first_match text l).2
      ∧ (first_match text l).2.length < l.length := by
  intro l
  induction l with
  | nil => intro n h; simp [first_match] at h
  | cons c rest ih =>
    intro n h
    rw [prefixed_names_cons]
    unfold first_match at h ⊢
    split at h
    · rename_i hp
      rw [if_pos hp, if_pos hp]
      cases h
      exact ⟨rfl, Nat.lt_succ_self _⟩
    · rename_i hp
      rw [if_neg hp, if_neg hp]
      obtain ⟨h1, h2⟩ := ih n h
      exact ⟨h1, Nat.lt_succ_of_lt h2⟩

/-- One call of a name generator whose statics are in step with `text`. -/
theorem command_generator_call (vec : List cmdopt) (text : string) (state : Int)
    (st : generator_static) (h0 : state = 0 → st.list_index = 0)
    (hlen : st.len = text.length) :
    ∃ j, command_generator vec text state st
        = ((first_match text (vec.drop st.list_index)).1,
            { list_index := j, len := text.length })
      ∧ vec.drop j = (first_match text (vec.drop st.list_index)).2 := by
  have hst : (if state = 0 then ({ list_index := 0, len := text.length } : generator_static)
      else st) = st := by
    split
    · rename_i hs
      have := h0 hs
      cases st
      simp_all
    · rfl
  obtain ⟨h1, h2⟩ := name_loop_eq vec text (vec.drop st.list_index) st.list_index rfl
  refine ⟨(name_loop text text.length (vec.drop st.list_index) st.list_index).2, ?_, h2⟩
  unfold command_generator
  simp only [hst, hlen]
  rw [h1]

/-- The run of `rl_completion_matches` over a name generator whose statics are
in step with `text`. -/
theorem name_generator_run (vec : List cmdopt) (text : string) :
    ∀ (calls : Nat) (state : Int) (st : generator_static),
      0 ≤ state → (state = 0 → st.list_index = 0) → st.len = text.length →
      (vec.drop st.list_index).length < calls →
      ∃ st1, rl_completion_matches
          (fun state s => some (command_generator vec text state s)) calls state st
        = some (prefixed_names text (vec.drop st.list_index), st1) := by
  intro calls
  induction calls with
  | zero => intro state st _ _ _ h; simp at h
  | succ calls ih =>
    intro state st hs h0 hlen hcalls
    obtain ⟨j, hj, hdrop⟩ := command_generator_call vec text state st h0 hlen
    unfold rl_completion_matches
    simp only [hj]
    cases hfm : (first_match text (vec.drop st.list_index)).1 with
    | none =>
      exact ⟨_, by rw [first_match_none text _ hfm]⟩
    | some n =>
      obtain ⟨h3, h4⟩ := first_match_some text _ n hfm
      obtain ⟨st1, hst1⟩ := ih (state + 1) { list_index := j, len := text.length }
        (by omega) (by omega) rfl (by simp only [hdrop]; omega)
      simp only [hdrop] at hst1
      exact ⟨st1, by simp only [hst1, h3]⟩

/-- A call with state 0 starts the run over, whatever the statics hold. -/
theorem name_generator_restart (vec : List cmdopt) (text : string) (calls : Nat)
    (st : generator_static) (hcalls : vec.length < calls) :
    ∃ st1, rl_completion_matches
        (fun state s => some (command_generator vec text state s)) calls 0 st
      = some (prefixed_names text vec, st1) := by
  obtain ⟨st1, h⟩ := name_generator_run vec text calls 0
    { list_index := 0, len := text.length } (le_refl _) (fun _ => rfl) rfl
    (by simpa using hcalls)
  refine ⟨st1, ?_⟩
  simp only [List.drop_zero] at h
  rw [← h]
  cases calls with
  | zero => rfl
  | succ calls =>
    unfold rl_completion_matches
    simp [command_generator]

theorem item_size_eq (mi : match_item) : item_size mi = 1 + map_size mi.sub_matches := by
  cases mi; simp [item_size, match_item.sub_matches]

theorem item_candidates_eq (pfx : string) (mi : match_item) :
    item_candidates pfx mi
      = (if mi.terminal then [pfx] else []) ++ map_candidates pfx mi.sub_matches := by
  cases mi; simp [item_candidates, match_item.sub_matches, match_item.terminal]

theorem push_children_eq (pfx : string) (subs : match_item_map) (stack : probe_stack) :
    push_children pfx subs stack
      = subs.map (fun e => (child_path pfx e.1, e.2)) ++ stack := by
  unfold push_children
  rw [List.foldl_reverse]
  induction subs with
  | nil => rfl
  | cons a subs ih => simp only [List.foldr_cons, List.map_cons, List.cons_append, ih]

theorem push_partial_matches_eq (text : string) (m : match_item_map) (stack : probe_stack) :
    push_partial_matches text m stack
      = m.filter (fun e => e.2.partial_match text) ++ stack := by
  unfold push_partial_matches
  rw [List.foldl_reverse]
  induction m with
  | nil => rfl
  | cons a m ih =>
    simp only [List.foldr_cons, List.filter_cons, ih]
    split <;> rfl

theorem stack_candidates_append (s t : probe_stack) :
    stack_candidates (s ++ t) = stack_candidates s ++ stack_candidates t := by
  induction s with
  | nil => rfl
  | cons a s ih =>
    obtain ⟨p, mi⟩ := a
    simp [stack_candidates, ih]

theorem stack_candidates_children (pfx : string) (subs : match_item_map) :
    stack_candidates (subs.map (fun e => (child_path pfx e.1, e.2)))
      = map_candidates pfx subs := by
  induction subs with
  | nil => simp [stack_candidates, map_candidates]
  | cons a subs ih =>
    obtain ⟨k, mi⟩ := a
    simp [stack_candidates, map_candidates, ih]

theorem map_size_append (s t : match_item_map) :
    map_size (s ++ t) = map_size s + map_size t := by
  induction s with
  | nil => simp [map_size]
  | cons a s ih =>
    obtain ⟨p, mi⟩ := a
    simp [map_size, ih, Nat.add_assoc]

theorem map_size_children (pfx : string) (subs : match_item_map) :
    map_size (subs.map (fun e => (child_path pfx e.1, e.2))) = map_size subs := by
  induction subs with
  | nil => rfl
  | cons a subs ih =>
    obtain ⟨k, mi⟩ := a
    simp [map_size, ih]

/-- With fuel for every node on the stack, the loop of `probe_generator`
returns: `NULL` when no candidate is left, else the next candidate, leaving the
others on a smaller stack. -/
theorem probe_loop_spec :
    ∀ (fuel : Nat) (stack : probe_stack), stack_size stack ≤ fuel →
      ∃ r stack1, probe_loop fuel stack = some (r, stack1)
        ∧ (r = none → stack_candidates stack = [] ∧ stack1 = [])
        ∧ (∀ n, r = some n → stack_candidates stack = n :: stack_candidates stack1
            ∧ stack_size stack1 < stack_size stack) := by
  intro fuel
  induction fuel with
  | zero =>
    intro stack h
    cases stack with
    | nil => exact ⟨none, [], rfl, fun _ => ⟨rfl, rfl⟩, fun n hn => by cases hn⟩
    | cons a s =>
      obtain ⟨p, mi⟩ := a
      simp [stack_size, map_size, item_size_eq] at h
  | succ fuel ih =>
    intro stack h
    cases stack with
    | nil => exact ⟨none, [], rfl, fun _ => ⟨rfl, rfl⟩, fun n hn => by cases hn⟩
    | cons a s =>
      obtain ⟨p, mi⟩ := a
      have hsz : stack_size (push_children p mi.sub_matches s) + 1
          = stack_size ((p, mi) :: s) := by
        simp only [stack_size, push_children_eq, map_size_append, map_size_children,
          map_size, item_size_eq]
        omega
      have hc : stack_candidates ((p, mi) :: s)
          = (if mi.terminal then [p] else [])
            ++ stack_candidates (push_children p mi.sub_matches s) := by
        simp only [stack_candidates, push_children_eq, stack_candidates_append,
          stack_candidates_children, item_candidates_eq, List.append_assoc]
      unfold probe_loop
      by_cases ht : mi.terminal = true
      · refine ⟨some p, push_children p mi.sub_matches s, by simp [ht],
          fun h => Option.noConfusion h, ?_⟩
        intro n hn
        cases hn
        rw [hc, if_pos ht]
        exact ⟨rfl, by omega⟩
      · obtain ⟨r, stack1, h1, h2, h3⟩ := ih (push_children p mi.sub_matches s) (by omega)
        refine ⟨r, stack1, by simp [ht, h1], ?_, ?_⟩
        · intro hr
          rw [hc, if_neg ht]
          exact h2 hr
        · intro n hn
          rw [hc, if_neg ht]
          obtain ⟨h4, h5⟩ := h3 n hn
          exact ⟨h4, by omega⟩

/-- The run of `rl_completion_matches` over `probe_generator` from a stack. -/
theorem probe_generator_run (probe_map : match_item_map) (saved_token text : string) (fuel : Nat) :
    ∀ (calls : Nat) (state : Int) (stack : probe_stack),
      0 ≤ state → (state = 0 → stack = initial_stack probe_map saved_token text) →
      stack_size stack ≤ fuel → stack_size stack < calls →
      rl_completion_matches
          (fun state st => probe_generator probe_map saved_token fuel text state st)
          calls state stack
        = some (stack_candidates stack, []) := by
  intro calls
  induction calls with
  | zero => intro state stack _ _ _ h; simp at h
  | succ calls ih =>
    intro state stack hs h0 hfuel hcalls
    have hgen : probe_generator probe_map saved_token fuel text state stack
        = probe_loop fuel stack := by
      unfold probe_generator
      by_cases hst : state = 0
      · rw [h0 hst]; simp [hst, initial_stack]
      · simp [hst]
    obtain ⟨r, stack1, h1, h2, h3⟩ := probe_loop_spec fuel stack hfuel
    unfold rl_completion_matches
    simp only [hgen, h1]
    cases r with
    | none =>
      obtain ⟨h4, h5⟩ := h2 rfl
      simp [h4, h5]
    | some n =>
      obtain ⟨h4, h5⟩ := h3 n rfl
      have := ih (state + 1) stack1 (by omega) (by omega) (by omega) (by omega)
      simp [this, h4]

/-- A call with state 0 starts the run over, whatever the stack holds. -/
theorem probe_generator_restart (probe_map : match_item_map) (saved_token text : string)
    (fuel : Nat) (stack : probe_stack)
    (hfuel : stack_size (initial_stack probe_map saved_token text) < fuel) :
    rl_completion_matches
        (fun state st => probe_generator probe_map saved_token fuel text state st)
        fuel 0 stack
      = some (stack_candidates (initial_stack probe_map saved_token text), []) := by
  rw [← probe_generator_run probe_map saved_token text fuel fuel 0
    (initial_stack probe_map saved_token text) (le_refl _) (fun _ => rfl)
    (Nat.le_of_lt hfuel) hfuel]
  cases fuel with
  | zero => rfl
  | succ fuel =>
    unfold rl_completion_matches
    simp [probe_generator, initial_stack]

theorem item_ordered_iff (mi : match_item) : item_ordered mi ↔ map_ordered mi.sub_matches := by
  cases mi; simp [item_ordered, map_ordered, match_item.sub_matches]

theorem string_lt_total : ∀ a b : string, string_lt a b = false → a ≠ b → string_lt b a = true := by
  intro a
  induction a with
  | nil =>
    intro b h hne
    cases b with
    | nil => exact absurd rfl hne
    | cons c cs => simp [string_lt] at h
  | cons x xs ih =>
    intro b h hne
    cases b with
    | nil => rfl
    | cons y ys =>
      unfold string_lt at h ⊢
      by_cases hxy : x < y
      · simp [hxy] at h
      · by_cases hyx : y < x
        · simp [hyx]
        · have hEq : x = y := le_antisymm (not_lt.mp hyx) (not_lt.mp hxy)
          subst hEq
          simp only [lt_self_iff_false, if_false] at h ⊢
          exact ih ys h (fun hh => hne (by rw [hh]))

theorem string_lt_trans : ∀ a b c : string, string_lt a b = true → string_lt b c = true →
    string_lt a c = true := by
  intro a
  induction a with
  | nil =>
    intro b c hab hbc
    cases b with
    | nil => simp [string_lt] at hab
    | cons y ys =>
      cases c with
      | nil => simp [string_lt] at hbc
      | cons z zs => rfl
  | cons x xs ih =>
    intro b c hab hbc
    cases b with
    | nil => simp [string_lt] at hab
    | cons y ys =>
      cases c with
      | nil => simp [string_lt] at hbc
      | cons z zs =>
        unfold string_lt at hab hbc ⊢
        by_cases hxy : x < y
        · by_cases hyz : y < z
          · simp [lt_trans hxy hyz]
          · by_cases hzy : z < y
            · simp [hyz, hzy] at hbc
            · have hEq : y = z := le_antisymm (not_lt.mp hzy) (not_lt.mp hyz)
              subst hEq
              simp [hxy]
        · by_cases hyx : y < x
          · simp [hxy, hyx] at hab
          · have hEq : x = y := le_antisymm (not_lt.mp hyx) (not_lt.mp hxy)
            subst hEq
            simp only [lt_self_iff_false, if_false] at hab
            by_cases hxz : x < z
            · simp [hxz]
            · by_cases hzx : z < x
              · simp [hxz, hzx] at hbc
              · simp only [hxz, hzx, if_false] at hbc ⊢
                exact ih ys zs hab hbc

theorem map_insert_chain (key : string) (mi : match_item) :
    ∀ (m : match_item_map) (lo : string), key_lt lo key →
      List.Chain key_lt lo (m.map Prod.fst) →
      List.Chain key_lt lo ((map_insert key mi m).map Prod.fst) := by
  intro m
  induction m with
  | nil =>
    intro lo hlo _
    exact List.Chain.cons hlo List.Chain.nil
  | cons a m ih =>
    obtain ⟨k, v⟩ := a
    intro lo hlo hch
    simp only [List.map_cons, List.chain_cons] at hch
    unfold map_insert
    by_cases h1 : string_lt key k = true
    · simp only [h1, if_true, List.map_cons]
      exact List.Chain.cons hlo (List.Chain.cons h1 hch.2)
    · by_cases h2 : key = k
      · subst h2
        simp only [h1, if_false, if_true, List.map_cons]
        exact List.Chain.cons hlo hch.2
      · simp only [h1, h2, if_false, List.map_cons]
        refine List.Chain.cons hch.1 (ih k ?_ hch.2)
        exact string_lt_total key k (by simpa using h1) h2

theorem map_insert_chain' (key : string) (mi : match_item) (m : match_item_map)
    (h : List.Chain' key_lt (m.map Prod.fst)) :
    List.Chain' key_lt ((map_insert key mi m).map Prod.fst) := by
  cases m with
  | nil => simp [map_insert]
  | cons a m =>
    obtain ⟨k, v⟩ := a
    simp only [List.map_cons, List.Chain'] at h
    unfold map_insert
    by_cases h1 : string_lt key k = true
    · simp only [h1, if_true, List.map_cons]
      exact List.Chain.cons h1 h
    · by_cases h2 : key = k
      · subst h2
        simp only [h1, if_false, if_true, List.map_cons]
        exact h
      · simp only [h1, h2, if_false, List.map_cons]
        exact map_insert_chain key mi m k (string_lt_total key k (by simpa using h1) h2) h

theorem map_insert_items (key : string) (mi : match_item) (hmi : item_ordered mi) :
    ∀ m : match_item_map, items_ordered m → items_ordered (map_insert key mi m) := by
  intro m
  induction m with
  | nil => intro _; exact ⟨hmi, trivial⟩
  | cons a m ih =>
    obtain ⟨k, v⟩ := a
    intro h
    simp only [items_ordered] at h
    unfold map_insert
    split
    · exact ⟨hmi, h.1, h.2⟩
    · split
      · exact ⟨hmi, h.2⟩
      · exact ⟨h.1, ih h.2⟩

theorem map_insert_ordered (key : string) (mi : match_item) (m : match_item_map)
    (hmi : item_ordered mi) (hm : map_ordered m) : map_ordered (map_insert key mi m) :=
  ⟨map_insert_chain' key mi m hm.1, map_insert_items key mi hmi m hm.2⟩

theorem map_descend_keys (key : string) (f : match_item_map → match_item_map) :
    ∀ m : match_item_map, (map_descend key f m).map Prod.fst = m.map Prod.fst := by
  intro m
  induction m with
  | nil => rfl
  | cons a m ih =>
    obtain ⟨k, v⟩ := a
    unfold map_descend
    split
    · rfl
    · simp only [List.map_cons, ih]

theorem map_descend_items (key : string) (f : match_item_map → match_item_map)
    (hf : ∀ sub, map_ordered sub → map_ordered (f sub)) :
    ∀ m : match_item_map, items_ordered m → items_ordered (map_descend key f m) := by
  intro m
  induction m with
  | nil => intro h; exact h
  | cons a m ih =>
    obtain ⟨k, v⟩ := a
    intro h
    simp only [items_ordered] at h
    unfold map_descend
    split
    · refine ⟨?_, h.2⟩
      rw [item_ordered_iff]
      exact hf _ ((item_ordered_iff v).mp h.1)
    · exact ⟨h.1, ih h.2⟩

theorem new_match_item_ordered (handle_regexps : Bool) (tok back : string)
    (subs : match_item_map) (h : map_ordered subs) :
    item_ordered (new_match_item handle_regexps tok back subs) := by
  rw [item_ordered_iff]
  unfold new_match_item
  dsimp only
  split <;> exact h

theorem process_tokens_ordered (handle_regexps : Bool) (back : string) :
    ∀ (tokens : List string) (m : match_item_map), map_ordered m →
      map_ordered (process_tokens handle_regexps back tokens m) := by
  intro tokens
  induction tokens with
  | nil => intro m h; exact h
  | cons tok rest ih =>
    intro m h
    unfold process_tokens
    split
    · exact map_insert_ordered _ _ _
        (new_match_item_ordered _ _ _ _ (ih [] ⟨List.chain'_nil, trivial⟩)) h
    · exact ⟨by rw [map_descend_keys]; exact h.1,
        map_descend_items _ _ (fun sub hs => ih sub hs) m h.2⟩

theorem process_probe_list_ordered (handle_regexps : Bool) :
    ∀ (probe_stream : List string) (m : match_item_map), map_ordered m →
      map_ordered (process_probe_list probe_stream handle_regexps m) := by
  intro probe_stream
  induction probe_stream with
  | nil => intro m h; exact h
  | cons line rest ih =>
    intro m h
    unfold process_probe_list
    rw [List.foldl_cons]
    apply ih
    unfold process_line
    split
    · exact h
    · exact process_tokens_ordered _ _ _ _ h

theorem items_ordered_mem : ∀ (m : match_item_map) (e : string × match_item),
    items_ordered m → e ∈ m → item_ordered e.2 := by
  intro m
  induction m with
  | nil => intro e _ he; cases he
  | cons a m ih =>
    obtain ⟨k, v⟩ := a
    intro e h he
    simp only [items_ordered] at h
    rcases List.mem_cons.mp he with rfl | he
    · exact h.1
    · exact ih e h.2 he

theorem probe_descend_ordered : ∀ (tokens : List string) (m : match_item_map),
    map_ordered m → map_ordered (probe_descend tokens m) := by
  intro tokens
  induction tokens with
  | nil => intro m h; exact h
  | cons tok rest ih =>
    intro m h
    unfold probe_descend
    split
    · rename_i e he
      exact ih _ ((item_ordered_iff _).mp (items_ordered_mem m e h.2 (List.mem_of_find?_eq_some he)))
    · exact h

theorem map_ordered_pairwise (m : match_item_map) (h : map_ordered m) :
    List.Pairwise (fun a b : string × match_item => string_lt a.1 b.1 = true) m := by
  haveI : IsTrans string key_lt := ⟨string_lt_trans⟩
  have hp : List.Pairwise key_lt (m.map Prod.fst) := List.chain'_iff_pairwise.mp h.1
  exact (List.pairwise_map.mp hp)

theorem getline_loop_line : ∀ (l cur rest : string), '\n' ∉ l →
    getline_loop (l ++ '\n' :: rest) cur = (cur ++ l) :: getline_loop rest [] := by
  intro l
  induction l with
  | nil => intro cur rest _; simp [getline_loop]
  | cons c cs ih =>
    intro cur rest h
    have hc : c ≠ '\n' := fun hh => h (by simp [hh])
    have hcs : '\n' ∉ cs := fun hh => h (List.mem_cons_of_mem _ hh)
    simp only [List.cons_append, getline_loop, hc, if_false]
    change getline_loop (cs ++ '\n' :: rest) (cur ++ [c]) = _
    rw [ih _ _ hcs]
    simp

theorem save_text_lines : ∀ (script_vec : List string), script_vec ≠ [] →
    (∀ l ∈ script_vec, '\n' ∉ l) →
    getline_loop (join script_vec "\n".toList ++ "\n".toList) [] = script_vec := by
  intro script_vec
  induction script_vec with
  | nil => intro h; exact absurd rfl h
  | cons x rest ih =>
    intro _ hnl
    have hx : '\n' ∉ x := hnl x (List.mem_cons_self _ _)
    cases rest with
    | nil =>
      have := getline_loop_line x [] [] hx
      simpa [join, getline_loop] using this
    | cons y rest =>
      have hrest := ih (by simp) (fun l hl => hnl l (List.mem_cons_of_mem _ hl))
      have := getline_loop_line x [] (join (y :: rest) "\n".toList ++ "\n".toList) hx
      simp only [join, List.append_assoc]
      show getline_loop (x ++ '\n' :: (join (y :: rest) "\n".toList ++ "\n".toList)) [] = _
      rw [this, hrest]
      simp

theorem isDigit_not_isspace (c : Char) (h : c.isDigit = true) : isspace c = false := by
  cases hs : isspace c with
  | false => rfl
  | true =>
    simp only [isspace, Bool.or_eq_true, beq_iff_eq] at hs
    rcases hs with ((((hc | hc) | hc) | hc) | hc) | hc <;>
      (subst hc; exact absurd h (by decide))

theorem scan_number_digits (t : string) (hne : t ≠ [])
    (hd : ∀ c ∈ t, c.isDigit = true) :
    scan_number t = { negative := false, digits := t, rest := [] } := by
  cases t with
  | nil => exact absurd rfl hne
  | cons c cs =>
    have hc : c.isDigit = true := hd c (List.mem_cons_self _ _)
    have hbody : (c :: cs).dropWhile isspace = c :: cs := by
      simp [List.dropWhile, isDigit_not_isspace c hc]
    have htake : (c :: cs).takeWhile Char.isDigit = c :: cs :=
      List.takeWhile_eq_self_iff.mpr hd
    have hdrop : (c :: cs).dropWhile Char.isDigit = [] :=
      List.dropWhile_eq_nil_iff.mpr hd
    unfold scan_number
    simp only [hbody]
    split
    · rename_i r heq
      injection heq with h1 _
      subst h1
      exact absurd hc (by decide)
    · rename_i r heq
      injection heq with h1 _
      subst h1
      exact absurd hc (by decide)
    · simp only [htake, hdrop]

theorem decimal_value_nonneg (t : string) : (0 : Int) ≤ (decimal_value t : Int) :=
  Int.ofNat_nonneg _

theorem strtol_digits (t : string) (hne : t ≠ []) (hd : ∀ c ∈ t, c.isDigit = true)
    (hfit : (decimal_value t : Int) ≤ LONG_MAX) :
    strtol t = { val := decimal_value t, endptr := [], errno := 0 } := by
  have hemp : t.isEmpty = false := by
    cases t with
    | nil => exact absurd rfl hne
    | cons c cs => rfl
  unfold strtol
  simp only [scan_number_digits t hne hd, hemp]
  have h1 : ¬ ((decimal_value t : Int) > LONG_MAX) := not_lt.mpr hfit
  have h2 : ¬ ((decimal_value t : Int) < LONG_MIN) := by
    have := decimal_value_nonneg t
    have : LONG_MIN < 0 := by decide
    omega
  simp [h1, h2]

theorem flag_handler_session (name : string) (get : systemtap_session → Bool)
    (put : systemtap_session → Bool → systemtap_session) (s : systemtap_session)
    (tokens : List string) (r : systemtap_session × List message × Bool)
    (h : flag_handler name get put s tokens = .ok r) :
    (r.1 = s ∨ ∃ b, r.1 = put s b) ∧ r.2.2 = false := by
  unfold flag_handler at h
  cases h0 : vector_at tokens 0 with
  | error e => simp [h0, bind, Except.bind] at h
  | ok t0 =>
    simp only [h0, bind, Except.bind] at h
    split at h
    · cases h2 : vector_at tokens 2 with
      | error e => simp [h2] at h
      | ok t2 =>
        simp only [h2, pure, Except.pure, Except.ok.injEq] at h
        subst h
        exact ⟨Or.inr ⟨_, rfl⟩, rfl⟩
    · simp only [pure, Except.pure, Except.ok.injEq] at h
      subst h
      exact ⟨Or.inl rfl, rfl⟩

/-- Every option handler that returns keeps `cmd` empty or `target_pid` zero
when one of the two held before, and returns false. -/
theorem option_handler_exclusive (opt : cmdopt) (s : systemtap_session)
    (tokens : List string) (r : systemtap_session × List message × Bool)
    (h : option_handler opt s tokens = .ok r)
    (hinv : s.cmd = [] ∨ s.target_pid = 0) :
    (r.1.cmd = [] ∨ r.1.target_pid = 0) ∧ r.2.2 = false := by
  have flag : ∀ (name : string) (get : systemtap_session → Bool)
      (put : systemtap_session → Bool → systemtap_session),
      (∀ s b, (put s b).cmd = s.cmd ∧ (put s b).target_pid = s.target_pid) →
      flag_handler name get put s tokens = .ok r →
      (r.1.cmd = [] ∨ r.1.target_pid = 0) ∧ r.2.2 = false := by
    intro name get put hput hf
    obtain ⟨h1, h2⟩ := flag_handler_session name get put s tokens r hf
    refine ⟨?_, h2⟩
    rcases h1 with h1 | ⟨b, h1⟩
    · rw [h1]; exact hinv
    · rw [h1, (hput s b).1, (hput s b).2]; exact hinv
  cases opt
  case keep_tmpdir_opt =>
    simp only [option_handler, keep_tmpdir_opt_handler] at h
    refine flag _ _ _ ?_ h
    intro _ _
    exact ⟨rfl, rfl⟩
  case guru_mode_opt =>
    simp only [option_handler, guru_mode_opt_handler] at h
    refine flag _ _ _ ?_ h
    intro _ _
    exact ⟨rfl, rfl⟩
  case suppress_warnings_opt =>
    simp only [option_handler, suppress_warnings_opt_handler] at h
    refine flag _ _ _ ?_ h
    intro _ _
    exact ⟨rfl, rfl⟩
  case panic_warnings_opt =>
    simp only [option_handler, panic_warnings_opt_handler] at h
    refine flag _ _ _ ?_ h
    intro _ _
    exact ⟨rfl, rfl⟩
  case timing_opt =>
    simp only [option_handler, timing_opt_handler] at h
    refine flag _ _ _ ?_ h
    intro _ _
    exact ⟨rfl, rfl⟩
  case unoptimized_opt =>
    simp only [option_handler, unoptimized_opt_handler] at h
    refine flag _ _ _ ?_ h
    intro _ _
    exact ⟨rfl, rfl⟩
  case last_pass_opt =>
    simp only [option_handler, last_pass_opt_handler] at h
    cases h0 : vector_at tokens 0 with
    | error e => simp [h0, bind, Except.bind] at h
    | ok t0 =>
      simp only [h0, bind, Except.bind] at h
      split at h
      · cases h2 : vector_at tokens 2 with
        | error e => simp [h2] at h
        | ok t2 =>
          simp only [h2, pure, Except.pure] at h
          split at h <;> (cases h; exact ⟨hinv, rfl⟩)
      · cases h; exact ⟨hinv, rfl⟩
  case verbose_opt =>
    simp only [option_handler, verbose_opt_handler] at h
    cases h0 : vector_at tokens 0 with
    | error e => simp [h0, bind, Except.bind] at h
    | ok t0 =>
      simp only [h0, bind, Except.bind] at h
      split at h
      · cases h2 : vector_at tokens 2 with
        | error e => simp [h2] at h
        | ok t2 =>
          simp only [h2, pure, Except.pure] at h
          split at h <;> (cases h; exact ⟨hinv, rfl⟩)
      · cases h; exact ⟨hinv, rfl⟩
  case target_pid_opt =>
    simp only [option_handler, target_pid_opt_handler] at h
    cases h0 : vector_at tokens 0 with
    | error e => simp [h0, bind, Except.bind] at h
    | ok t0 =>
      simp only [h0, bind, Except.bind] at h
      split at h
      · split at h
        · cases h; exact ⟨hinv, rfl⟩
        · rename_i hcmd
          have hcmd : s.cmd = [] := by simpa using hcmd
          cases h2 : vector_at tokens 2 with
          | error e => simp [h2] at h
          | ok t2 =>
            simp only [h2, pure, Except.pure] at h
            split at h <;> (cases h; exact ⟨Or.inl hcmd, rfl⟩)
      · cases h; exact ⟨hinv, rfl⟩
  case cmd_opt =>
    simp only [option_handler, cmd_opt_handler] at h
    cases h0 : vector_at tokens 0 with
    | error e => simp [h0, bind, Except.bind] at h
    | ok t0 =>
      simp only [h0, bind, Except.bind] at h
      split at h
      · split at h
        · cases h; exact ⟨hinv, rfl⟩
        · rename_i hpid
          have hpid : s.target_pid = 0 := by simpa using hpid
          simp only [pure, Except.pure] at h
          split at h
          · split at h
            · cases h
            · split at h
              · cases h
              · cases h; exact ⟨Or.inr hpid, rfl⟩
          · cases h; exact ⟨Or.inr hpid, rfl⟩
      · cases h; exact ⟨hinv, rfl⟩
  all_goals (simp only [option_handler, pure, Except.pure] at h; cases h; exact ⟨hinv, rfl⟩)

theorem set_cmd_handler_exclusive (s : systemtap_session) (tokens : List string)
    (r : systemtap_session × List message × Bool)
    (h : set_cmd_handler s tokens = .ok r) (hinv : s.cmd = [] ∨ s.target_pid = 0) :
    (r.1.cmd = [] ∨ r.1.target_pid = 0) ∧ r.2.2 = false := by
  unfold set_cmd_handler at h
  split at h
  · cases h; exact ⟨hinv, rfl⟩
  · cases h1 : vector_at tokens 1 with
    | error e => simp [h1, bind, Except.bind] at h
    | ok t1 =>
      simp only [h1, bind, Except.bind] at h
      split at h
      · rename_i opt _
        cases ho : option_handler opt s tokens with
        | error e => simp [ho] at h
        | ok r1 =>
          simp only [ho, pure, Except.pure] at h
          cases h
          exact ⟨(option_handler_exclusive opt s tokens r1 ho hinv).1, rfl⟩
      · cases h; exact ⟨hinv, rfl⟩

theorem run_set_commands_exclusive :
    ∀ (cmds : List (List string)) (s s1 : systemtap_session),
      (s.cmd = [] ∨ s.target_pid = 0) → run_set_commands cmds s = .ok s1 →
      (s1.cmd = [] ∨ s1.target_pid = 0) := by
  intro cmds
  induction cmds with
  | nil =>
    intro s s1 hinv h
    simp only [run_set_commands, pure, Except.pure] at h
    cases h
    exact hinv
  | cons tokens rest ih =>
    intro s s1 hinv h
    simp only [run_set_commands, bind, Except.bind] at h
    cases hr : set_cmd_handler s tokens with
    | error e => simp [hr] at h
    | ok r =>
      simp only [hr] at h
      exact ih r.1 s1 (set_cmd_handler_exclusive s tokens r hr hinv).1 h

/-- The signed value that `strtol` reads from the scan of a text. -/
theorem strtol_cases (V : string) :
    ((scan_number V).digits.isEmpty = true
      ∧ strtol V = { val := 0, endptr := V, errno := 0 }
      ∧ decimal_integer V = none)
    ∨ ((scan_number V).digits.isEmpty = false ∧ ∃ v : Int,
        decimal_integer V = (if (scan_number V).rest ≠ [] then none else some v)
        ∧ ((LONG_MAX < v
            ∧ strtol V = { val := LONG_MAX, endptr := (scan_number V).rest, errno := ERANGE })
          ∨ (v < LONG_MIN
            ∧ strtol V = { val := LONG_MIN, endptr := (scan_number V).rest, errno := ERANGE })
          ∨ (LONG_MIN ≤ v ∧ v ≤ LONG_MAX
            ∧ strtol V = { val := v, endptr := (scan_number V).rest, errno := 0 }))) := by
  cases hdig : (scan_number V).digits.isEmpty with
  | true =>
    left
    refine ⟨rfl, ?_, ?_⟩
    · unfold strtol; simp only [hdig, if_true]
    · unfold decimal_integer; simp only [hdig, true_or, if_true]
  | false =>
    right
    refine ⟨rfl, (if (scan_number V).negative then -(decimal_value (scan_number V).digits : Int)
      else (decimal_value (scan_number V).digits : Int)), ?_, ?_⟩
    · unfold decimal_integer
      simp only [hdig, Bool.false_eq_true, false_or]
    · unfold strtol
      simp only [hdig, Bool.false_eq_true, if_false]
      generalize (if (scan_number V).negative = true
        then -(decimal_value (scan_number V).digits : Int)
        else (decimal_value (scan_number V).digits : Int)) = v
      by_cases h1 : v > LONG_MAX
      · left; exact ⟨h1, by rw [if_pos h1]⟩
      · by_cases h2 : v < LONG_MIN
        · right; left; exact ⟨h2, by rw [if_neg h1, if_pos h2]⟩
        · right; right
          exact ⟨not_lt.mp h2, not_lt.mp h1, by rw [if_neg h1, if_neg h2]⟩

/-- The test of `last_pass_opt::handler` on the result of `strtol` accepts
exactly the texts that are a decimal integer from 1 to 5. -/
theorem last_pass_test (V : string) :
    (if (strtol V).errno ≠ 0 ∨ (strtol V).endptr ≠ [] ∨ (strtol V).val < 1 ∨ (strtol V).val > 5
      then (none : Option Int) else some (strtol V).val)
    = (match decimal_integer V with
        | some v => if 1 ≤ v ∧ v ≤ 5 then some v else none
        | none => none) := by
  have hmax : LONG_MAX = 9223372036854775807 := by decide
  have hmin : LONG_MIN = -9223372036854775808 := by decide
  have herange : ERANGE ≠ 0 := by decide
  rcases strtol_cases V with ⟨_, hs, hd⟩ | ⟨_, v, hd, hs⟩
  · rw [hs, hd]
    simp
  · rw [hd]
    by_cases hrest : (scan_number V).rest = []
    · rcases hs with ⟨hv, hs⟩ | ⟨hv, hs⟩ | ⟨hv1, hv2, hs⟩
      · rw [hs]
        have : ¬ (1 ≤ v ∧ v ≤ 5) := by omega
        simp [hrest, this, herange]
      · rw [hs]
        have : ¬ (1 ≤ v ∧ v ≤ 5) := by omega
        simp [hrest, this, herange]
      · rw [hs]
        by_cases h3 : 1 ≤ v ∧ v ≤ 5
        · have h4 : ¬ (v < 1 ∨ v > 5) := by omega
          simp [hrest, h3, h4]
        · have h4 : (v < 1 ∨ v > 5) := by omega
          simp [hrest, h3, h4]
    · rcases hs with ⟨hv, hs⟩ | ⟨hv, hs⟩ | ⟨hv1, hv2, hs⟩ <;>
        (rw [hs]; simp [hrest])


theorem find_option_cmd : find_option "cmd".toList = some .cmd_opt := by decide

theorem find_option_target_pid :
    find_option "target_pid".toList = some .target_pid_opt := by decide

theorem find_option_last_pass :
    find_option "last_pass".toList = some .last_pass_opt := by decide

theorem map_find_cons (k : string) (v : match_item) (rest : match_item_map) (key : string) :
    map_find ((k, v) :: rest) key = if k = key then some v else map_find rest key := by
  unfold map_find
  by_cases h : k = key <;> simp [List.find?_cons, h]

theorem map_find_insert_self (key : string) (mi : match_item) :
    ∀ m : match_item_map, map_find (map_insert key mi m) key = some mi := by
  intro m
  induction m with
  | nil => simp [map_insert, map_find_cons, map_find]
  | cons a m ih =>
    obtain ⟨k, v⟩ := a
    unfold map_insert
    by_cases h1 : string_lt key k = true
    · simp [h1, map_find_cons]
    · by_cases h2 : key = k
      · subst h2
        simp [h1, map_find_cons]
      · have h3 : ¬ k = key := fun h => h2 h.symm
        simp [h1, h2, h3, map_find_cons, ih]

theorem map_find_insert_ne (key : string) (mi : match_item) (k0 : string) (hne : k0 ≠ key) :
    ∀ m : match_item_map, map_find (map_insert key mi m) k0 = map_find m k0 := by
  intro m
  have hne2 : ¬ key = k0 := fun h => hne h.symm
  induction m with
  | nil => simp [map_insert, map_find_cons, map_find, hne2]
  | cons a m ih =>
    obtain ⟨k, v⟩ := a
    unfold map_insert
    by_cases h1 : string_lt key k = true
    · simp [h1, map_find_cons, hne2]
    · by_cases h2 : key = k
      · subst h2
        simp [h1, map_find_cons, hne2]
      · simp [h1, h2, map_find_cons, ih]

theorem map_count_eq_zero_iff (m : match_item_map) (key : string) :
    map_count m key = 0 ↔ map_find m key = none := by
  induction m with
  | nil => simp [map_count, map_find]
  | cons a m ih =>
    obtain ⟨k, v⟩ := a
    rw [map_find_cons]
    unfold map_count at ih ⊢
    by_cases h : k = key
    · simp [h]
    · simp only [List.any_cons, h, decide_False, Bool.false_or, if_false]
      exact ih

theorem map_find_descend_ne (key : string) (f : match_item_map → match_item_map)
    (k0 : string) (hne : k0 ≠ key) :
    ∀ m : match_item_map, map_find (map_descend key f m) k0 = map_find m k0 := by
  intro m
  induction m with
  | nil => rfl
  | cons a m ih =>
    obtain ⟨k, v⟩ := a
    unfold map_descend
    by_cases h : k = key
    · subst h
      have : ¬ k = k0 := fun h => hne h.symm
      simp [map_find_cons, this]
    · simp only [h, if_false, map_find_cons, ih]

theorem map_find_descend_self (key : string) (f : match_item_map → match_item_map) :
    ∀ (m : match_item_map) (v : match_item), map_find m key = some v →
      map_find (map_descend key f m) key
        = some (match_item.mk v.match_text v.regexp v.terminal (f v.sub_matches)) := by
  intro m
  induction m with
  | nil => intro v h; simp [map_find] at h
  | cons a m ih =>
    obtain ⟨k, v0⟩ := a
    intro v h
    rw [map_find_cons] at h
    unfold map_descend
    by_cases hk : k = key
    · simp only [hk, if_true, Option.some.injEq] at h
      subst h
      simp [hk, map_find_cons]
    · simp only [hk, if_false] at h
      simp only [hk, if_false, map_find_cons]
      exact ih v h

theorem match_item_eta (v : match_item) :
    match_item.mk v.match_text v.regexp v.terminal v.sub_matches = v := by
  cases v; rfl

theorem map_descend_id (key : string) (f : match_item_map → match_item_map) :
    ∀ (m : match_item_map) (v : match_item), map_find m key = some v →
      f v.sub_matches = v.sub_matches → map_descend key f m = m := by
  intro m
  induction m with
  | nil => intro v h; simp [map_find] at h
  | cons a m ih =>
    obtain ⟨k, v0⟩ := a
    intro v h hf
    rw [map_find_cons] at h
    unfold map_descend
    by_cases hk : k = key
    · simp only [hk, if_true, Option.some.injEq] at h
      subst h
      simp only [hk, if_true, hf, match_item_eta]
    · simp only [hk, if_false] at h
      simp only [hk, if_false]
      rw [ih v h hf]

theorem same_fields_refl (a : match_item) : same_fields a a := ⟨rfl, rfl, rfl⟩

theorem same_fields_trans (a b c : match_item) (h1 : same_fields a b)
    (h2 : same_fields b c) : same_fields a c :=
  ⟨h1.1.trans h2.1, h1.2.1.trans h2.2.1, h1.2.2.trans h2.2.2⟩

theorem lookup_path_cons (key : string) (rest : List string) (m : match_item_map) :
    lookup_path (key :: rest) m
      = match map_find m key with
        | some item => if rest = [] then some item else lookup_path rest item.sub_matches
        | none => none := by
  cases rest with
  | nil =>
    simp only [lookup_path, if_true]
    cases map_find m key <;> rfl
  | cons k2 r =>
    simp only [lookup_path]
    cases map_find m key <;> simp

/-- The walk of `process_tokens` keeps every node that was there, with its
fields, under the path it had. -/
theorem process_tokens_frame (handle_regexps : Bool) (back : string) :
    ∀ (tokens : List string) (m : match_item_map) (path : List string) (node : match_item),
      lookup_path path m = some node →
      ∃ node1, lookup_path path (process_tokens handle_regexps back tokens m) = some node1
        ∧ same_fields node node1 := by
  intro tokens
  induction tokens with
  | nil => intro m path node h; exact ⟨node, h, same_fields_refl node⟩
  | cons tok rest ih =>
    intro m path node h
    cases path with
    | nil => simp [lookup_path] at h
    | cons k prest =>
      rw [lookup_path_cons] at h ⊢
      cases hk : map_find m k with
      | none => simp [hk] at h
      | some item =>
        simp only [hk] at h
        unfold process_tokens
        by_cases hc : map_count m tok = 0
        · have hne : k ≠ tok := by
            intro heq
            subst heq
            rw [(map_count_eq_zero_iff m k).mp hc] at hk
            cases hk
          simp only [hc, if_true, map_find_insert_ne _ _ k hne, hk]
          exact ⟨node, h, same_fields_refl node⟩
        · simp only [hc, if_false]
          by_cases heq : k = tok
          · subst heq
            rw [map_find_descend_self k _ m item hk]
            simp only
            by_cases hp : prest = []
            · simp only [hp, if_true, Option.some.injEq] at h ⊢
              subst h
              exact ⟨_, rfl, rfl, rfl, rfl⟩
            · simp only [hp, if_false] at h ⊢
              exact ih item.sub_matches prest node h
          · simp only [map_find_descend_ne _ _ k heq, hk]
            exact ⟨node, h, same_fields_refl node⟩

theorem process_line_frame (handle_regexps : Bool) (line : string) (m : match_item_map)
    (path : List string) (node : match_item) (h : lookup_path path m = some node) :
    ∃ node1, lookup_path path (process_line handle_regexps m line) = some node1
      ∧ same_fields node node1 := by
  unfold process_line
  split
  · exact ⟨node, h, same_fields_refl node⟩
  · exact process_tokens_frame _ _ _ m path node h

theorem process_probe_list_frame (handle_regexps : Bool) :
    ∀ (probe_stream : List string) (m : match_item_map) (path : List string)
      (node : match_item), lookup_path path m = some node →
      ∃ node1, lookup_path path (process_probe_list probe_stream handle_regexps m) = some node1
        ∧ same_fields node node1 := by
  intro probe_stream
  induction probe_stream with
  | nil => intro m path node h; exact ⟨node, h, same_fields_refl node⟩
  | cons line rest ih =>
    intro m path node h
    obtain ⟨n1, h1, hs1⟩ := process_line_frame handle_regexps line m path node h
    obtain ⟨n2, h2, hs2⟩ := ih (process_line handle_regexps m line) path n1 h1
    exact ⟨n2, by simpa [process_probe_list] using h2, same_fields_trans _ _ _ hs1 hs2⟩

/-- After a path has been processed it is in the map. -/
theorem process_tokens_present (handle_regexps : Bool) (back : string) :
    ∀ (tokens : List string) (m : match_item_map), tokens ≠ [] →
      (lookup_path tokens (process_tokens handle_regexps back tokens m)).isSome = true := by
  intro tokens
  induction tokens with
  | nil => intro m h; exact absurd rfl h
  | cons tok rest ih =>
    intro m _
    rw [lookup_path_cons]
    unfold process_tokens
    by_cases hc : map_count m tok = 0
    · simp only [hc, if_true, map_find_insert_self]
      by_cases hr : rest = []
      · simp [hr]
      · simp only [hr, if_false]
        have hsub : (new_match_item handle_regexps tok back
            (process_tokens handle_regexps back rest [])).sub_matches
            = process_tokens handle_regexps back rest [] := by
          unfold new_match_item
          dsimp only
          split <;> rfl
        rw [hsub]
        exact ih [] hr
    · simp only [hc, if_false]
      cases hf : map_find m tok with
      | none => exact absurd ((map_count_eq_zero_iff m tok).mpr hf) hc
      | some v =>
        rw [map_find_descend_self tok _ m v hf]
        by_cases hr : rest = []
        · simp [hr]
        · simp only [hr, if_false]
          exact ih v.sub_matches hr

/-- Processing a path that is in the map already changes nothing. -/
theorem process_tokens_fixed (handle_regexps : Bool) (back : string) :
    ∀ (tokens : List string) (m : match_item_map),
      (tokens = [] ∨ (lookup_path tokens m).isSome = true) →
      process_tokens handle_regexps back tokens m = m := by
  intro tokens
  induction tokens with
  | nil => intro m _; rfl
  | cons tok rest ih =>
    intro m h
    rcases h with h | h
    · cases h
    · rw [lookup_path_cons] at h
      cases hf : map_find m tok with
      | none => simp [hf] at h
      | some v =>
        simp only [hf] at h
        have hc : ¬ map_count m tok = 0 := by
          intro hc
          rw [(map_count_eq_zero_iff m tok).mp hc] at hf
          cases hf
        unfold process_tokens
        simp only [hc, if_false]
        apply map_descend_id tok _ m v hf
        apply ih
        by_cases hr : rest = []
        · exact Or.inl hr
        · right
          simpa [hr] using h

theorem line_present_after (handle_regexps : Bool) (m : match_item_map) (line : string) :
    line_present line (process_line handle_regexps m line) := by
  intro hr
  unfold process_line
  by_cases he : line.isEmpty = true
  · simp [he]
  · simp only [he, if_false]
    generalize hb : (tokenize (match string_find " ".toList line with
      | some space_pos => List.take space_pos line
      | none => line) ".".toList) = tokens
    generalize (tokens.getLastD []) = back
    apply process_tokens_fixed
    by_cases ht : tokens = []
    · exact Or.inl ht
    · exact Or.inr (process_tokens_present handle_regexps back tokens m ht)

theorem line_present_kept (handle_regexps : Bool) (m : match_item_map) (line other : string)
    (h : line_present line m) : line_present line (process_line handle_regexps m other) := by
  intro hr
  have h0 := h hr
  unfold process_line at h0 ⊢
  by_cases he : line.isEmpty = true
  · simp [he]
  · simp only [he, if_false] at h0 ⊢
    generalize hb : (tokenize (match string_find " ".toList line with
      | some space_pos => List.take space_pos line
      | none => line) ".".toList) = tokens at h0 ⊢
    generalize (tokens.getLastD []) = back at h0 ⊢
    by_cases ho : other.isEmpty = true
    · simp only [ho, if_true]; exact h0
    · simp only [ho, if_false]
      generalize (tokenize (match string_find " ".toList other with
        | some space_pos => List.take space_pos other
        | none => other) ".".toList) = otokens
      generalize (otokens.getLastD []) = oback
      apply process_tokens_fixed
      by_cases ht : tokens = []
      · exact Or.inl ht
      · right
        have hp : (lookup_path tokens m).isSome = true := by
          have h0' : process_tokens hr back tokens m = m := by simpa using h0
          have := process_tokens_present hr back tokens m ht
          rw [h0'] at this
          exact this
        cases hl : lookup_path tokens m with
        | none => simp [hl] at hp
        | some node =>
          obtain ⟨n1, h1, _⟩ := process_tokens_frame handle_regexps oback otokens m tokens node hl
          simp [h1]

theorem line_present_kept_list (handle_regexps : Bool) (line : string) :
    ∀ (probe_stream : List string) (m : match_item_map), line_present line m →
      line_present line (process_probe_list probe_stream handle_regexps m) := by
  intro probe_stream
  induction probe_stream with
  | nil => intro m h; exact h
  | cons other rest ih =>
    intro m h
    have := ih (process_line handle_regexps m other)
      (line_present_kept handle_regexps m line other h)
    simpa [process_probe_list] using this

theorem lines_present_after (handle_regexps : Bool) :
    ∀ (probe_stream : List string) (m : match_item_map), ∀ line ∈ probe_stream,
      line_present line (process_probe_list probe_stream handle_regexps m) := by
  intro probe_stream
  induction probe_stream with
  | nil => intro m line h; cases h
  | cons l0 rest ih =>
    intro m line h
    have hstep : process_probe_list (l0 :: rest) handle_regexps m
        = process_probe_list rest handle_regexps (process_line handle_regexps m l0) := by
      simp [process_probe_list]
    rw [hstep]
    rcases List.mem_cons.mp h with rfl | h
    · exact line_present_kept_list handle_regexps _ rest _
        (line_present_after handle_regexps m _)
    · exact ih _ line h

theorem process_probe_list_fixed (handle_regexps : Bool) :
    ∀ (probe_stream : List string) (m : match_item_map),
      (∀ line ∈ probe_stream, line_present line m) →
      process_probe_list probe_stream handle_regexps m = m := by
  intro probe_stream
  induction probe_stream with
  | nil => intro m _; rfl
  | cons l0 rest ih =>
    intro m h
    have hstep : process_probe_list (l0 :: rest) handle_regexps m
        = process_probe_list rest handle_regexps (process_line handle_regexps m l0) := by
      simp [process_probe_list]
    rw [hstep, h l0 (List.mem_cons_self _ _) handle_regexps]
    exact ih m (fun line hl => h line (List.mem_cons_of_mem _ hl))


theorem join_snoc (delim : string) : ∀ (path : List string) (key : string), path ≠ [] →
    join (path ++ [key]) delim = join path delim ++ delim ++ key := by
  intro path
  induction path with
  | nil => intro key h; exact absurd rfl h
  | cons x rest ih =>
    intro key _
    cases rest with
    | nil => simp [join]
    | cons y r =>
      have := ih key (by simp)
      simp only [List.cons_append] at this ⊢
      simp only [join, this, List.append_assoc]

theorem paths_of_append (a b : List (List string × match_item)) :
    paths_of (a ++ b) = paths_of a ++ paths_of b := by
  simp [paths_of, List.filter_append]

mutual
theorem item_candidates_nodes (path : List string) (hne : path ≠ []) :
    ∀ mi : match_item,
      item_candidates (join path ".".toList) mi = paths_of (subtree_nodes path mi)
  | .mk t r term subs => by
    have h := map_candidates_nodes path hne subs
    unfold item_candidates subtree_nodes
    rw [h]
    cases term <;> simp [paths_of, match_item.terminal]
theorem map_candidates_nodes (path : List string) (hne : path ≠ []) :
    ∀ m : match_item_map,
      map_candidates (join path ".".toList) m = paths_of (children_nodes path m)
  | [] => by simp [map_candidates, children_nodes, paths_of]
  | (key, mi) :: rest => by
    have h1 := item_candidates_nodes (path ++ [key]) (by simp) mi
    have h2 := map_candidates_nodes path hne rest
    unfold map_candidates children_nodes
    rw [paths_of_append, ← h1, ← h2, join_snoc _ path key hne]
    rfl
end

theorem string_find_some (pat : string) : ∀ (s : string) (p : Nat),
    string_find pat s = some p → ∃ rest, s = s.take p ++ pat ++ rest := by
  intro s
  induction s with
  | nil =>
    intro p h
    unfold string_find at h
    split at h
    · rename_i he
      cases h
      have : pat = [] := by simpa using he
      exact ⟨[], by simp [this]⟩
    · cases h
  | cons c cs ih =>
    intro p h
    unfold string_find at h
    split at h
    · rename_i hp
      cases h
      obtain ⟨rest, hr⟩ := List.isPrefixOf_iff_prefix.mp hp
      exact ⟨rest, by simp [hr]⟩
    · cases hf : string_find pat cs with
      | none => simp [hf] at h
      | some q =>
        simp only [hf, Option.map_some', Option.some.injEq] at h
        subst h
        obtain ⟨rest, hr⟩ := ih q hf
        refine ⟨rest, ?_⟩
        simp only [List.take_succ_cons, List.cons_append, List.cons.injEq, true_and]
        simpa [List.append_assoc] using hr

theorem string_find_none (pat : string) : ∀ s : string,
    string_find pat s = none → ¬ pat <:+: s := by
  intro s
  induction s with
  | nil =>
    intro h hin
    unfold string_find at h
    have hp : pat = [] := by simpa using hin
    simp [hp] at h
  | cons c cs ih =>
    intro h hin
    unfold string_find at h
    split at h
    · cases h
    · rename_i hp
      cases hf : string_find pat cs with
      | some q => simp [hf] at h
      | none =>
        rcases List.infix_cons_iff.mp hin with h1 | h1
        · exact hp (List.isPrefixOf_iff_prefix.mpr h1)
        · exact ih hf h1

theorem assign_perpass_verbose_eq (saved arr : List Int) (hs : saved.length = 5)
    (ha : arr.length = 5) :
    assign_perpass_verbose (fun i => saved.getD i 0) arr = saved := by
  match saved, hs with
  | [a, b, c, d, e], _ =>
    match arr, ha with
    | [a1, b1, c1, d1, e1], _ => rfl

theorem toUpper_cases (c : Char) :
    c.toUpper = c ∨ ∃ n, 97 ≤ n ∧ n ≤ 122 ∧ c = Char.ofNat n
      ∧ c.toUpper = Char.ofNat (n - 32) := by
  by_cases h : c.toNat ≥ 97 ∧ c.toNat ≤ 122
  · right
    refine ⟨c.toNat, h.1, h.2, (Char.ofNat_toNat c).symm, ?_⟩
    unfold Char.toUpper
    simp only [h, and_self, if_true]
  · left
    unfold Char.toUpper
    simp only [h, if_false]

theorem toUpper_eq_upper (c u l : Char) (hu : u.toUpper = u) (hl : l.toUpper = u)
    (hne : l ≠ u)
    (honly : ∀ n, 97 ≤ n → n ≤ 122 → Char.ofNat (n - 32) = u → Char.ofNat n = l) :
    c.toUpper = u ↔ c = l ∨ c = u := by
  constructor
  · intro h
    rcases toUpper_cases c with e | ⟨n, h1, h2, hc, e⟩
    · right; rw [← e]; exact h
    · left; rw [hc]; exact honly n h1 h2 (by rw [← e]; exact h)
  · rintro (rfl | rfl)
    · exact hl
    · exact hu

theorem toUpper_eq_Y (c : Char) : c.toUpper = 'Y' ↔ c = 'y' ∨ c = 'Y' := by
  refine toUpper_eq_upper c 'Y' 'y' (by decide) (by decide) (by decide) ?_
  intro n h1 h2
  interval_cases n <;> decide

theorem toUpper_eq_N (c : Char) : c.toUpper = 'N' ↔ c = 'n' ∨ c = 'N' := by
  refine toUpper_eq_upper c 'N' 'n' (by decide) (by decide) (by decide) ?_
  intro n h1 h2
  interval_cases n <;> decide

theorem toUpper_eq_nul (c : Char) : c.toUpper = Char.ofNat 0 ↔ c = Char.ofNat 0 := by
  constructor
  · intro h
    rcases toUpper_cases c with e | ⟨n, h1, h2, hc, e⟩
    · rw [← e]; exact h
    · exfalso
      rw [e] at h
      revert h
      interval_cases n <;> decide
  · rintro rfl
    decide

theorem response_answer_yes (r : string) :
    (r.headD (Char.ofNat 0)).toUpper = 'Y' ↔ begins_yes r = true := by
  cases r with
  | nil => simp [begins_yes]
  | cons c cs => simp [begins_yes, toUpper_eq_Y]

theorem response_answer_no (r : string) :
    (r.headD (Char.ofNat 0)).toUpper = 'N' ↔ begins_no r = true := by
  cases r with
  | nil => simp [begins_no]
  | cons c cs => simp [begins_no, toUpper_eq_N]

theorem response_answer_nul (r : string) (h : Char.ofNat 0 ∉ r) :
    (r.headD (Char.ofNat 0)).toUpper = Char.ofNat 0 ↔ r.isEmpty = true := by
  cases r with
  | nil => simp
  | cons c cs =>
    have hc : c ≠ Char.ofNat 0 := fun e => h (by simp [e])
    simp [toUpper_eq_nul, hc]

theorem query_loop_retval (qdefault : query_default) :
    ∀ (responses : List string) (out : List message),
      (∀ r ∈ responses, Char.ofNat 0 ∉ r) →
      (query_loop qdefault (if qdefault = .default_no then 0 else 1)
          (if qdefault = .default_no then 'N' else 'Y')
          (if qdefault = .default_no then 'Y' else 'N') responses out).retval
        = if answered_yes true qdefault responses = true then 1 else 0 := by
  intro responses
  induction responses with
  | nil => intro out _; cases qdefault <;> rfl
  | cons r rest ih =>
    intro out hnul
    have hrest : ∀ x ∈ rest, Char.ofNat 0 ∉ x :=
      fun x hx => hnul x (List.mem_cons_of_mem _ hx)
    have hY := response_answer_yes r
    have hN := response_answer_no r
    have hZ := response_answer_nul r (hnul r (List.mem_cons_self _ _))
    have hstep := ih (out ++ [.please_answer]) hrest
    rw [query_loop]
    simp only [answered_yes, List.find?_cons, is_answer] at hstep ⊢
    generalize (r.headD (Char.ofNat 0)).toUpper = a at hY hN hZ ⊢
    cases hy : begins_yes r <;> cases hn : begins_no r <;> cases he : r.isEmpty <;>
      cases qdefault <;> simp_all

/-! ## The claims -/

/-- Claim C1, evaluated where it fails: the alias dump delivers
`syscall.read.return` and then `syscall.read`.  The only walk along
`syscall`, `read` by `full_match` ends in the node whose keys join to
`syscall.read`, and its `terminal` flag is false, although `syscall.read` was
fed as a whole path: the node existed already, and `process_probe_list` sets
`terminal` only in the branch that creates a node.  With the two lines in the
other order the same walk ends in a terminal node. -/
theorem process_probe_list_terminal_missed :
    (full_match_walk ["syscall".toList, "read".toList]
        (process_probe_list ["syscall.read.return".toList, "syscall.read".toList] false [])).map
      (fun r => (join r.1 ".".toList, r.2.terminal)) = [("syscall.read".toList, false)]
    ∧ (full_match_walk ["syscall".toList, "read".toList]
        (process_probe_list ["syscall.read".toList, "syscall.read.return".toList] false [])).map
      (fun r => (join r.1 ".".toList, r.2.terminal)) = [("syscall.read".toList, true)] := by
  decide

/-- Claim C2: for a `match_item` whose `regexp` is empty or one of the two
patterns that `process_probe_list` installs (every item it creates is such
an item, last part), `full_match` holds of a text exactly when, with no
pattern, the text is `match_text`, and with a pattern, the text starts with
`match_text` and what follows matches the pattern.  The four examples:
`kernel` matches the item of `kernel`, `kernel("sys_read")` the item of
`kernel(string)`, `process(123)` the item of `process(number)`, and the bare
`process` does not match the item of `process(number)`. -/
theorem full_match_iff (mi : match_item) (text : string)
    (h : mi.regexp = [] ∨ mi.regexp = number_regexp ∨ mi.regexp = string_regexp) :
    (mi.full_match text = true ↔
      if mi.regexp = [] then text = mi.match_text
      else mi.match_text <+: text
        ∧ regexp_match (text.drop mi.match_text.length) mi.regexp = 0)
    ∧ (∀ back subs, (new_match_item true "kernel".toList back subs).full_match
          "kernel".toList = true)
    ∧ (∀ back subs, (new_match_item true "kernel(string)".toList back subs).full_match
          "kernel(\"sys_read\")".toList = true)
    ∧ (∀ back subs, (new_match_item true "process(number)".toList back subs).full_match
          "process(123)".toList = true)
    ∧ (∀ back subs, (new_match_item true "process(number)".toList back subs).full_match
          "process".toList = false)
    ∧ (∀ handle_regexps tok back subs,
        (new_match_item handle_regexps tok back subs).regexp = []
        ∨ (new_match_item handle_regexps tok back subs).regexp = number_regexp
        ∨ (new_match_item handle_regexps tok back subs).regexp = string_regexp) := by
  refine ⟨?_, fun _ _ => rfl, fun _ _ => rfl, fun _ _ => rfl, fun _ _ => rfl, ?_⟩
  · unfold match_item.full_match
    by_cases hre : mi.regexp = []
    · simp [hre]
    · have hne : mi.regexp.isEmpty = false := by
        cases hr : mi.regexp with
        | nil => exact absurd hr hre
        | cons a l => rfl
      simp only [hne, hre, if_false, Bool.false_eq_true, Bool.and_eq_true, decide_eq_true_eq]
      constructor
      · rintro ⟨⟨_, h2⟩, h3⟩
        exact ⟨h2 ▸ List.take_prefix _ _, h3⟩
      · rintro ⟨h1, h2⟩
        have hlen : mi.match_text.length ≤ text.length := h1.length_le
        refine ⟨⟨?_, ?_⟩, h2⟩
        · rcases Nat.lt_or_ge mi.match_text.length text.length with hl | hl
          · exact hl
          · exfalso
            have hd : List.drop mi.match_text.length text = [] := List.drop_eq_nil_of_le hl
            rw [hd] at h2
            rcases h with h | h | h
            · exact hre h
            · rw [h] at h2; exact absurd h2 (by decide)
            · rw [h] at h2; exact absurd h2 (by decide)
        · exact (List.prefix_iff_eq_take.mp h1).symm
  · intro handle_regexps tok back subs
    unfold new_match_item
    dsimp only
    split
    · exact Or.inr (Or.inl rfl)
    · exact Or.inr (Or.inr rfl)
    · exact Or.inl rfl

/-- The characterisation of C2 at the item `process(number)` and the text
`process(0x1f)`. -/
theorem full_match_iff_witness :
    ((match_item.mk "process".toList number_regexp true []).regexp = []
      ∨ (match_item.mk "process".toList number_regexp true []).regexp = number_regexp
      ∨ (match_item.mk "process".toList number_regexp true []).regexp = string_regexp)
    ∧ (match_item.mk "process".toList number_regexp true []).full_match
        "process(0x1f)".toList = true :=
  ⟨Or.inr (Or.inl rfl),
   (full_match_iff (match_item.mk "process".toList number_regexp true [])
      "process(0x1f)".toList (Or.inr (Or.inl rfl))).1.mpr (by decide)⟩

/-- Claim C3: `partial_match(t)` holds exactly when `t` is empty or a prefix
of `match_text`; it fails for every text longer than `match_text`; and it is
the same whatever the `regexp` of the item. -/
theorem partial_match_iff (mi : match_item) (t : string) :
    (mi.partial_match t = true ↔ t = [] ∨ t <+: mi.match_text)
    ∧ (mi.match_text.length < t.length → mi.partial_match t = false)
    ∧ (∀ re, (match_item.mk mi.match_text re mi.terminal mi.sub_matches).partial_match t
          = mi.partial_match t) := by
  have key : mi.partial_match t = true ↔ t = [] ∨ t <+: mi.match_text := by
    unfold match_item.partial_match
    by_cases ht : t = []
    · simp [ht]
    · have hl : t.length ≠ 0 := by simpa using ht
      simp only [hl, if_false, decide_eq_true_eq, ht, false_or]
      rw [List.prefix_iff_eq_take]
      exact eq_comm
  refine ⟨key, ?_, fun re => rfl⟩
  intro hlt
  cases hpm : mi.partial_match t with
  | false => rfl
  | true =>
    rcases key.mp hpm with h | h
    · subst h; simp at hlt
    · exact absurd h.length_le (by omega)

/-- Claim C4: on the index built, with placeholder handling, from
`kernel.function(string)`, `kernel.trace(string)` and
`process(number).function(string)`, the calls of `probe_generator` for the
saved token `kernel.f` and the word `f` yield the one candidate
`function(string)` and then `NULL`, whatever the stack held before and for
any fuel from 2 on; `interactive_completion` on the line
`add probe kernel.f` saves that token and returns that one match. -/
theorem probe_generator_kernel_f (fuel : Nat) (stack : probe_stack) (hfuel : 2 ≤ fuel) :
    rl_completion_matches
        (fun state st => probe_generator (process_probe_list example_probes true [])
          "kernel.f".toList fuel "f".toList state st) fuel 0 stack
      = some (["function(string)".toList], [])
    ∧ ((interactive_completion 2 (initial_globals (process_probe_list example_probes true []))
          "add probe kernel.f".toList "f".toList 17).map
        (fun r => (r.match_list, r.entry_func, r.globals.saved_token)))
      = some (["function(string)".toList], some .probe_generator, "kernel.f".toList) := by
  refine ⟨?_, by decide⟩
  have hsize : stack_size (initial_stack (process_probe_list example_probes true [])
      "kernel.f".toList "f".toList) = 1 := by decide
  have hcand : stack_candidates (initial_stack (process_probe_list example_probes true [])
      "kernel.f".toList "f".toList) = ["function(string)".toList] := by decide
  rw [probe_generator_restart _ _ _ fuel stack (by omega), hcand]

/-- The run of C4 with fuel 2 from an empty stack. -/
theorem probe_generator_kernel_f_witness :
    2 ≤ 2 ∧ rl_completion_matches
        (fun state st => probe_generator (process_probe_list example_probes true [])
          "kernel.f".toList 2 "f".toList state st) 2 0 []
      = some (["function(string)".toList], []) :=
  ⟨le_refl _, (probe_generator_kernel_f 2 [] (le_refl _)).1⟩

/-- Claim C6, evaluated where it fails: on the line `set verbose ` with the
cursor after the trailing blank (`start` 12, empty word) the word under
completion is the third one, yet `interactive_completion` runs
`option_generator` and returns every option name: the blank leaves
`tokens.size()` at 2. -/
theorem option_completion_on_third_token :
    (interactive_completion 11 (initial_globals []) "set verbose ".toList [] 12).map
      (fun r => (r.match_list, r.entry_func))
      = some (option_vec.map cmdopt.name, some .option_generator) := by
  decide

/-- Claim C7, evaluated where it fails: on the line `load ` with the cursor
after the trailing blank (`start` 5, empty word) `interactive_completion`
returns no match and leaves `rl_attempted_completion_over` at 1, so file-name
completion stays off: `tokens.size()` is 1, not 2.  Once a character of the
file name is typed (`load f`) the flag is 0. -/
theorem load_completion_empty_argument :
    (interactive_completion 11 (initial_globals []) "load ".toList [] 5).map
      (fun r => (r.match_list, r.entry_func, r.globals.rl_attempted_completion_over))
      = some ([], none, 1)
    ∧ (interactive_completion 11 (initial_globals []) "load f".toList "f".toList 5).map
      (fun r => (r.match_list, r.entry_func, r.globals.rl_attempted_completion_over))
      = some ([], none, 0) := by
  decide

/-- Claim C8 fails as stated: after `kernel.trace(string)` and then
`kernel.function(string)` have been fed, completing `kernel.` yields the
candidate of `function(string)` before that of `trace(string)`, the reverse of
the insertion order. -/
theorem probe_generator_not_insertion_order :
    (rl_completion_matches
        (fun state st => probe_generator
          (process_probe_list ["kernel.trace(string)".toList, "kernel.function(string)".toList]
            true [])
          "kernel.".toList 3 [] state st) 3 0 []).map Prod.fst
      = some ["function(string)".toList, "trace(string)".toList] := by
  decide

/-- Claim C8 as amended: in the index built by `process_probe_list` from the
two dumps, every map of children is in ascending key order (`map_ordered`),
in particular the map that completion starts from, whatever the order of the
lines; and `probe_generator` yields, for the children of that map that
partially match the text, taken in ascending key order, the candidates of
each child's subtree before those of the next child. -/
theorem probe_generator_key_order (probes aliases : List string)
    (saved_token text : string) (fuel : Nat) (stack : probe_stack)
    (hfuel : stack_size (initial_stack
        (process_probe_list aliases false (process_probe_list probes true []))
        saved_token text) < fuel) :
    map_ordered (process_probe_list aliases false (process_probe_list probes true []))
    ∧ List.Pairwise (fun a b : string × match_item => string_lt a.1 b.1 = true)
        (probe_descend (tokenize saved_token ".".toList)
          (process_probe_list aliases false (process_probe_list probes true [])))
    ∧ rl_completion_matches
        (fun state st => probe_generator
          (process_probe_list aliases false (process_probe_list probes true []))
          saved_token fuel text state st) fuel 0 stack
      = some (stack_candidates
          ((probe_descend (tokenize saved_token ".".toList)
              (process_probe_list aliases false (process_probe_list probes true []))).filter
            (fun e => e.2.partial_match text)), []) := by
  have hord : map_ordered
      (process_probe_list aliases false (process_probe_list probes true [])) :=
    process_probe_list_ordered _ _ _
      (process_probe_list_ordered _ _ _ ⟨List.chain'_nil, trivial⟩)
  refine ⟨hord, map_ordered_pairwise _ (probe_descend_ordered _ _ hord), ?_⟩
  rw [probe_generator_restart _ _ _ fuel stack hfuel]
  simp only [initial_stack, push_partial_matches_eq, List.append_nil]

/-- The run of amended C8 after `kernel.trace(string)` and then
`kernel.function(string)`, completing `kernel.` with fuel 3. -/
theorem probe_generator_key_order_witness :
    stack_size (initial_stack
        (process_probe_list [] false
          (process_probe_list
            ["kernel.trace(string)".toList, "kernel.function(string)".toList] true []))
        "kernel.".toList []) < 3
    ∧ rl_completion_matches
        (fun state st => probe_generator
          (process_probe_list [] false
            (process_probe_list
              ["kernel.trace(string)".toList, "kernel.function(string)".toList] true []))
          "kernel.".toList 3 [] state st) 3 0 []
      = some (stack_candidates
          ((probe_descend (tokenize "kernel.".toList ".".toList)
              (process_probe_list [] false
                (process_probe_list
                  ["kernel.trace(string)".toList, "kernel.function(string)".toList]
                  true []))).filter
            (fun e => e.2.partial_match [])), []) :=
  ⟨by decide, (probe_generator_key_order
    ["kernel.trace(string)".toList, "kernel.function(string)".toList] []
    "kernel.".toList [] 3 [] (by decide)).2.2⟩

/-- Claim C9: each generator can be started over.  Whatever its statics hold
(so also after any number of results of an earlier run, for any earlier
text), a call with state 0 followed by calls with non-zero state gives a
finite list closed by `NULL`, and the list does not depend on those statics:
the names of the vector that start with the text for `command_generator` and
`option_generator`, the candidates of the initial stack for
`probe_generator`.  The fuel has to exceed the length of the vector and the
number of nodes on the initial stack. -/
theorem generators_restart (vec : List cmdopt) (probe_map : match_item_map)
    (saved_token text : string) (fuel : Nat)
    (hvec : vec.length < fuel)
    (hfuel : stack_size (initial_stack probe_map saved_token text) < fuel) :
    (∀ st : generator_static, ∃ st1, rl_completion_matches
        (fun state s => some (command_generator vec text state s)) fuel 0 st
      = some ((vec.map cmdopt.name).filter (fun n => text.isPrefixOf n), st1))
    ∧ (∀ st : generator_static, ∃ st1, rl_completion_matches
        (fun state s => some (option_generator vec text state s)) fuel 0 st
      = some ((vec.map cmdopt.name).filter (fun n => text.isPrefixOf n), st1))
    ∧ (∀ stack : probe_stack, rl_completion_matches
        (fun state st => probe_generator probe_map saved_token fuel text state st) fuel 0 stack
      = some (stack_candidates (initial_stack probe_map saved_token text), [])) :=
  ⟨fun st => name_generator_restart vec text fuel st hvec,
   fun st => name_generator_restart vec text fuel st hvec,
   fun stack => probe_generator_restart probe_map saved_token text fuel stack hfuel⟩

/-- The restart of C9 over `option_vec` and the example index with fuel 11,
the probe stack still holding an entry of an earlier run. -/
theorem generators_restart_witness :
    option_vec.length < 11
    ∧ stack_size (initial_stack (process_probe_list example_probes true [])
        "kernel.".toList []) < 11
    ∧ rl_completion_matches
        (fun state st => probe_generator (process_probe_list example_probes true [])
          "kernel.".toList 11 [] state st) 11 0
        [("trace(string)".toList, match_item.mk "trace".toList string_regexp true [])]
      = some (stack_candidates (initial_stack (process_probe_list example_probes true [])
          "kernel.".toList []), []) :=
  ⟨by decide, by decide,
   (generators_restart option_vec (process_probe_list example_probes true [])
      "kernel.".toList [] 11 (by decide) (by decide)).2.2
      [("trace(string)".toList, match_item.mk "trace".toList string_regexp true [])]⟩

/-- Claim C10 fails for the empty buffer: `save` writes a single newline, and
`load` reads it back into an empty buffer as one empty line. -/
theorem save_load_empty_buffer :
    (load_cmd_handler
        { (save_cmd_handler
            { script_vec := [],
              files := { contents := fun _ => none, writable := fun _ => true },
              output := [] }
            ["save".toList, "f".toList]).1 with script_vec := [] }
        ["load".toList, "f".toList]).1.script_vec = [[]] := by
  decide

/-- Claim C10 as amended: for a buffer that is not empty and whose lines hold
no newline, `save` to a file that opens for writing and then `load` of the
same file into an empty buffer gives the buffer back, line for line. -/
theorem save_load_roundtrip (h : handler_state) (file : string)
    (hne : h.script_vec ≠ []) (hnl : ∀ l ∈ h.script_vec, '\n' ∉ l)
    (hw : h.files.writable file = true) :
    (load_cmd_handler
        { (save_cmd_handler h ["save".toList, file]).1 with script_vec := [] }
        ["load".toList, file]).1.script_vec = h.script_vec := by
  simp [load_cmd_handler, save_cmd_handler, hw]
  exact save_text_lines h.script_vec hne hnl

/-- The round trip of amended C10 for a buffer of three lines, the second one
blank. -/
theorem save_load_roundtrip_witness :
    (load_cmd_handler
        { (save_cmd_handler
            { script_vec := ["probe begin".toList, [], "probe end".toList],
              files := { contents := fun _ => none, writable := fun _ => true },
              output := [] }
            ["save".toList, "f".toList]).1 with script_vec := [] }
        ["load".toList, "f".toList]).1.script_vec
      = ["probe begin".toList, [], "probe end".toList] :=
  save_load_roundtrip
    { script_vec := ["probe begin".toList, [], "probe end".toList],
      files := { contents := fun _ => none, writable := fun _ => true },
      output := [] }
    "f".toList (by decide) (by decide) rfl

/-- Claim C11: `delete` without an argument returns false and leaves the
script empty when `query` returns non-zero and as it was when `query`
returns 0; on a terminal `query` returns 1 for a response that begins with
`y` or `Y` and 0 for one that begins with `n` or `N`. -/
theorem delete_whole_script (ext : external) (st : repl_state) :
    (∃ st1, delete_cmd_handler ext st ["delete".toList] = .ok (st1, false)
      ∧ st1.handler.script_vec
          = if (query ext.isatty .no_default st.responses).retval ≠ 0 then []
            else st.handler.script_vec)
    ∧ (∀ (c : Char) (r : string) (rest : List string), c = 'y' ∨ c = 'Y' →
        (query true .no_default ((c :: r) :: rest)).retval = 1)
    ∧ (∀ (c : Char) (r : string) (rest : List string), c = 'n' ∨ c = 'N' →
        (query true .no_default ((c :: r) :: rest)).retval = 0) := by
  refine ⟨?_, ?_, ?_⟩
  · unfold delete_cmd_handler
    simp only [List.length_singleton, if_true]
    split
    · exact ⟨_, rfl, rfl⟩
    · exact ⟨_, rfl, rfl⟩
  · rintro c r rest (rfl | rfl) <;> rfl
  · rintro c r rest (rfl | rfl) <;> rfl

/-- Claim C12: for a buffer of `n` lines and a line number `N` of type `long`
given in decimal digits, with `N - 1 > n` as the code computes it in `size_t`
(which holds for `N = 0`), `delete N` returns false, reports `No line N` and
changes neither the buffer nor the session. -/
theorem delete_out_of_range (ext : external) (st : repl_state) (t : string)
    (hne : t ≠ []) (hd : ∀ c ∈ t, c.isDigit = true)
    (hfit : (decimal_value t : Int) ≤ LONG_MAX)
    (hout : (st.handler.script_vec.length : Int) < ((decimal_value t : Int) - 1) % 2 ^ 64) :
    delete_cmd_handler ext st ["delete".toList, t]
      = .ok (st.print [.no_line (decimal_value t)], false)
    ∧ (st.print [.no_line (decimal_value t)]).handler.script_vec = st.handler.script_vec
    ∧ (st.print [.no_line (decimal_value t)]).session = st.session := by
  refine ⟨?_, rfl, rfl⟩
  unfold delete_cmd_handler
  have h1 : ([("delete".toList : string), t].length = 1) = False := by simp
  have h2 : ([("delete".toList : string), t].length ≠ 2) = False := by simp
  have h3 : vector_at ["delete".toList, t] 1 = .ok t := rfl
  have hv := decimal_value_nonneg t
  simp only [h1, h2, if_false, h3, bind, Except.bind, strtol_digits t hne hd hfit]
  have h4 : ¬ ((0 : Int) ≠ 0 ∨ ([] : string) ≠ [] ∨ (decimal_value t : Int) < 0) := by
    simp
  rw [if_neg h4]
  have h5 : ((decimal_value t : Int) - 1) % 2 ^ 64 > (st.handler.script_vec.length : Int) := hout
  simp only [h5, if_true]
  rfl

/-- C12 on a script of two lines: `delete 0` and `delete 4`. -/
theorem delete_out_of_range_witness :
    delete_cmd_handler sample_external sample_state ["delete".toList, "0".toList]
      = .ok (sample_state.print [.no_line 0], false)
    ∧ delete_cmd_handler sample_external sample_state ["delete".toList, "4".toList]
      = .ok (sample_state.print [.no_line 4], false) :=
  ⟨(delete_out_of_range sample_external sample_state "0".toList (by decide) (by decide)
      (by decide) (by decide)).1,
   (delete_out_of_range sample_external sample_state "4".toList (by decide) (by decide)
      (by decide) (by decide)).1⟩

/-- Claim C13: `set last_pass V` stores `v` in `last_pass`, printing nothing
and changing no other field, exactly when the whole of `V` is a decimal
integer `v` with `1 ≤ v ≤ 5`; for every other `V` it prints
`Invalid option value (should be 1-5)` and leaves the session as it was.  So
do `0`, `6`, `abc` and `3x`, while `3` is stored, after which
`show last_pass` prints `last_pass: 3`. -/
theorem set_last_pass (s : systemtap_session) (V : string) :
    set_cmd_handler s ["set".toList, "last_pass".toList, V]
      = .ok (match decimal_integer V with
          | some v =>
            if 1 ≤ v ∧ v ≤ 5 then ({ s with last_pass := v }, [], false)
            else (s, [.invalid_last_pass], false)
          | none => (s, [.invalid_last_pass], false))
    ∧ decimal_integer "0".toList = some 0
    ∧ decimal_integer "6".toList = some 6
    ∧ decimal_integer "3".toList = some 3
    ∧ decimal_integer "abc".toList = none
    ∧ decimal_integer "3x".toList = none
    ∧ show_cmd_handler { s with last_pass := 3 } ["show".toList, "last_pass".toList]
      = .ok ({ s with last_pass := 3 }, [.line "last_pass: 3".toList], false) := by
  refine ⟨?_, by decide, by decide, by decide, by decide, by decide, ?_⟩
  · have h : set_cmd_handler s ["set".toList, "last_pass".toList, V]
        = (match (if (strtol V).errno ≠ 0 ∨ (strtol V).endptr ≠ [] ∨ (strtol V).val < 1
              ∨ (strtol V).val > 5 then (none : Option Int) else some (strtol V).val) with
            | none => Except.ok (s, [message.invalid_last_pass], false)
            | some v => Except.ok ({ s with last_pass := v }, [], false)) := by
      unfold set_cmd_handler
      have h1 : ¬ ([("set".toList : string), "last_pass".toList, V].length < 3) := by simp
      have e1 : vector_at ["set".toList, "last_pass".toList, V] 1
          = .ok "last_pass".toList := rfl
      have e0 : vector_at ["set".toList, "last_pass".toList, V] 0 = .ok "set".toList := rfl
      have e2 : vector_at ["set".toList, "last_pass".toList, V] 2 = .ok V := rfl
      rw [if_neg h1]
      simp only [e1, bind, Except.bind, find_option_last_pass, option_handler,
        last_pass_opt_handler, e0, e2, if_true]
      by_cases hc : (strtol V).errno ≠ 0 ∨ (strtol V).endptr ≠ [] ∨ (strtol V).val < 1
          ∨ (strtol V).val > 5
      · rw [if_pos hc, if_pos hc]; rfl
      · rw [if_neg hc, if_neg hc]; rfl
    rw [h, last_pass_test V]
    cases decimal_integer V with
    | none => rfl
    | some v => by_cases hv : 1 ≤ v ∧ v ≤ 5 <;> simp [hv]
  · unfold show_cmd_handler
    have e1 : vector_at ["show".toList, "last_pass".toList] 1 = .ok "last_pass".toList := rfl
    have e0 : vector_at ["show".toList, "last_pass".toList] 0 = .ok "show".toList := rfl
    have hd : decimal_text 3 = "3".toList := by decide
    have hn : ¬ ("show".toList = "set".toList) := by decide
    have hl1 : ¬ ([("show".toList : string), "last_pass".toList].length = 1) := by simp
    have hl2 : ¬ ([("show".toList : string), "last_pass".toList].length ≠ 2) := by simp
    rw [if_neg hl1, if_neg hl2]
    simp only [e1, bind, Except.bind, find_option_last_pass, option_handler,
      last_pass_opt_handler, e0]
    rw [if_neg hn]
    simp only [hd]
    rfl

/-- Claim C14: with `target_pid` non-zero, `set cmd ...` prints the message
on the two being exclusive and leaves the session as it was; with `cmd` not
empty, `set target_pid ...` does the same.  From a session with `cmd` empty
or `target_pid` zero, every session that a run of `set` commands reaches has
`cmd` empty or `target_pid` zero.  Two runs show each order of the two
options. -/
theorem cmd_and_target_pid_exclusive :
    (∀ (s : systemtap_session) (t2 : string) (rest : List string), s.target_pid ≠ 0 →
      set_cmd_handler s ("set".toList :: "cmd".toList :: t2 :: rest)
        = .ok (s, [.pid_and_cmd_together], false))
    ∧ (∀ (s : systemtap_session) (t2 : string) (rest : List string), s.cmd ≠ [] →
      set_cmd_handler s ("set".toList :: "target_pid".toList :: t2 :: rest)
        = .ok (s, [.pid_and_cmd_together], false))
    ∧ (∀ (cmds : List (List string)) (s s1 : systemtap_session),
        (s.cmd = [] ∨ s.target_pid = 0) → run_set_commands cmds s = .ok s1 →
        (s1.cmd = [] ∨ s1.target_pid = 0))
    ∧ run_set_commands [["set".toList, "cmd".toList, "ls".toList],
          ["set".toList, "target_pid".toList, "3".toList]] sample_session
        = .ok { sample_session with cmd := "ls".toList }
    ∧ run_set_commands [["set".toList, "target_pid".toList, "3".toList],
          ["set".toList, "cmd".toList, "ls".toList]] sample_session
        = .ok { sample_session with target_pid := 3 } := by
  refine ⟨?_, ?_, run_set_commands_exclusive, rfl, rfl⟩
  · intro s t2 rest h
    unfold set_cmd_handler
    have h1 : ¬ (("set".toList :: "cmd".toList :: t2 :: rest).length < 3) := by simp
    have e1 : vector_at ("set".toList :: "cmd".toList :: t2 :: rest) 1
        = .ok "cmd".toList := rfl
    have e0 : vector_at ("set".toList :: "cmd".toList :: t2 :: rest) 0
        = .ok "set".toList := rfl
    rw [if_neg h1]
    simp only [e1, bind, Except.bind, find_option_cmd, option_handler, cmd_opt_handler, e0,
      if_true]
    rw [if_pos h]
    rfl
  · intro s t2 rest h
    unfold set_cmd_handler
    have h1 : ¬ (("set".toList :: "target_pid".toList :: t2 :: rest).length < 3) := by simp
    have e1 : vector_at ("set".toList :: "target_pid".toList :: t2 :: rest) 1
        = .ok "target_pid".toList := rfl
    have e0 : vector_at ("set".toList :: "target_pid".toList :: t2 :: rest) 0
        = .ok "set".toList := rfl
    rw [if_neg h1]
    simp only [e1, bind, Except.bind, find_option_target_pid, option_handler,
      target_pid_opt_handler, e0, if_true]
    rw [if_pos h]
    rfl

/-- Claim C15, evaluated where it fails: in a session with `cmd` empty,
`set target_pid 1234` prints `Invalid target process ID number.` and leaves
`target_pid` as it was; the handler tests `val > 5`, the bound of
`last_pass`.  The value 5 is stored. -/
theorem target_pid_above_five_rejected :
    set_cmd_handler sample_session ["set".toList, "target_pid".toList, "1234".toList]
      = .ok (sample_session, [.invalid_target_pid], false)
    ∧ set_cmd_handler sample_session ["set".toList, "target_pid".toList, "5".toList]
      = .ok ({ sample_session with target_pid := 5 }, [], false) := by
  constructor <;> rfl

/-- Claim C16, evaluated where it fails: `set cmd` with a value that is one
double quote, or one single quote, does not return: after the first `erase`
the string is empty and the second `erase`, at position `size() - 1`, throws
`std::out_of_range`. -/
theorem set_cmd_single_quote_raises :
    set_cmd_handler sample_session ["set".toList, "cmd".toList, "\"".toList]
      = .error .out_of_range
    ∧ set_cmd_handler sample_session ["set".toList, "cmd".toList, "'".toList]
      = .error .out_of_range := by
  constructor <;> rfl

/-- Claim C17, evaluated where it fails: with `target_pid` zero and the
tokens `set`, `cmd` and one double quote, `cmd_opt::handler` stores nothing
and throws `std::out_of_range`.  A value wrapped in quotes is stored without
them, one with an opening quote only is stored as it is. -/
theorem cmd_single_quote_not_stored (s : systemtap_session) :
    cmd_opt_handler { s with target_pid := 0 } ["set".toList, "cmd".toList, "\"".toList]
      = .error .out_of_range
    ∧ cmd_opt_handler { s with target_pid := 0 }
        ["set".toList, "cmd".toList, "\"ls".toList, "-l\"".toList]
      = .ok ({ s with target_pid := 0, cmd := "ls -l".toList }, [], false)
    ∧ cmd_opt_handler { s with target_pid := 0 }
        ["set".toList, "cmd".toList, "\"ls".toList, "-l".toList]
      = .ok ({ s with target_pid := 0, cmd := "\"ls -l".toList }, [], false) := by
  refine ⟨rfl, rfl, rfl⟩

/-- Claim C18: for each of the six flag options and every value `V`,
`set OPTION V` stores in the field of that option whether `V` differs from
the string `0`, prints nothing and changes no other field; `00`, `false` and
`no` store true, `0` stores false. -/
theorem flag_options_set (s : systemtap_session) (V : string) :
    set_cmd_handler s ["set".toList, "keep_tmpdir".toList, V]
      = .ok ({ s with keep_tmpdir := decide (V ≠ "0".toList) }, [], false)
    ∧ set_cmd_handler s ["set".toList, "guru_mode".toList, V]
      = .ok ({ s with guru_mode := decide (V ≠ "0".toList) }, [], false)
    ∧ set_cmd_handler s ["set".toList, "suppress_warnings".toList, V]
      = .ok ({ s with suppress_warnings := decide (V ≠ "0".toList) }, [], false)
    ∧ set_cmd_handler s ["set".toList, "panic_warnings".toList, V]
      = .ok ({ s with panic_warnings := decide (V ≠ "0".toList) }, [], false)
    ∧ set_cmd_handler s ["set".toList, "timing".toList, V]
      = .ok ({ s with timing := decide (V ≠ "0".toList) }, [], false)
    ∧ set_cmd_handler s ["set".toList, "unoptimized".toList, V]
      = .ok ({ s with unoptimized := decide (V ≠ "0".toList) }, [], false)
    ∧ set_cmd_handler s ["set".toList, "keep_tmpdir".toList, "00".toList]
      = .ok ({ s with keep_tmpdir := true }, [], false)
    ∧ set_cmd_handler s ["set".toList, "guru_mode".toList, "false".toList]
      = .ok ({ s with guru_mode := true }, [], false)
    ∧ set_cmd_handler s ["set".toList, "timing".toList, "no".toList]
      = .ok ({ s with timing := true }, [], false)
    ∧ set_cmd_handler s ["set".toList, "unoptimized".toList, "0".toList]
      = .ok ({ s with unoptimized := false }, [], false) := by
  refine ⟨rfl, rfl, rfl, rfl, rfl, rfl, rfl, rfl, rfl, rfl⟩

/-- Claim C19, evaluated where it fails: with `target_pid` zero the line
`set cmd "` makes the handler of `set` throw `std::out_of_range`, so the round
of the loop neither returns false nor ends by `quit`.  The line `quit`
leaves the loop with the state as it was, and a line whose first token names
no command prints `Undefined command` and goes on. -/
theorem set_cmd_quote_leaves_loop (ext : external) (st : repl_state) :
    interactive_mode_round ext
        { st with session := { st.session with target_pid := 0 } }
        (some "set cmd \"".toList)
      = .error .out_of_range
    ∧ interactive_mode_round ext st (some "quit".toList) = .ok (st, true)
    ∧ interactive_mode_round ext st (some "frob".toList)
      = .ok (st.print [.undefined_command "frob".toList], false) := by
  refine ⟨rfl, rfl, rfl⟩

/-- Claim C20, evaluated where it fails: for a line of blanks and tabs only
the token list is empty, no command is looked up, and the complaint that
follows reads `tokens[0]` of the empty vector.  The empty line and the end of
input go back to the prompt with the state as it was. -/
theorem blank_line_indexes_empty_tokens (ext : external) (st : repl_state) :
    interactive_mode_round ext st (some " ".toList) = .error .vector_index
    ∧ interactive_mode_round ext st (some " \t ".toList) = .error .vector_index
    ∧ interactive_mode_round ext st (some []) = .ok (st, false)
    ∧ interactive_mode_round ext st none = .ok (st, false) := by
  refine ⟨rfl, rfl, rfl, rfl⟩

/-- Claim C21, evaluated where it fails: when every step up to the rewind
succeeds and `fdopen` fails, `edit` leaves the script buffer empty, whatever
it held: `script_vec.clear()` runs before the descriptor is converted.  A
failure of `mkstemp`, of `write` (attempted for a buffer that is not empty),
of the editor or of `lseek` leaves the buffer as it was. -/
theorem edit_fdopen_failure_clears_script (ext : external) (st : repl_state) :
    (edit_cmd_handler
        { ext with mkstemp_ok := true, write_ok := true, editor_status := 0,
                   lseek_ok := true, fdopen_ok := false } st).1.handler.script_vec = []
    ∧ (edit_cmd_handler { ext with mkstemp_ok := false } st).1.handler.script_vec
        = st.handler.script_vec
    ∧ (st.handler.script_vec.isEmpty = false →
        (edit_cmd_handler { ext with mkstemp_ok := true, write_ok := false } st).1.handler.script_vec
          = st.handler.script_vec)
    ∧ (edit_cmd_handler
        { ext with mkstemp_ok := true, write_ok := true, editor_status := 1 } st).1.handler.script_vec
        = st.handler.script_vec
    ∧ (edit_cmd_handler
        { ext with mkstemp_ok := true, write_ok := true, editor_status := 0,
                   lseek_ok := false } st).1.handler.script_vec
        = st.handler.script_vec := by
  refine ⟨?_, ?_, ?_, ?_, ?_⟩
  · simp [edit_cmd_handler, repl_state.print, repl_state.set_script]
  · simp [edit_cmd_handler, repl_state.print]
  · intro h
    simp [edit_cmd_handler, repl_state.print, h]
  · simp [edit_cmd_handler]
  · simp [edit_cmd_handler, repl_state.print]

/-- Claim C22: whatever the set-up of the server and the two calls of
`passes_0_4` do to the session (an array `perpass_verbose` has five
elements), and with a `clear_script_data` that does not touch the three
fields, the bootstrap leaves `verbose`, `perpass_verbose` and `last_pass` as
they were on entry. -/
theorem bootstrap_restores_session (b : bootstrap_external) (s : systemtap_session)
    (probe_map : match_item_map)
    (hs : s.perpass_verbose.length = 5)
    (hp : ∀ x, (b.passes_0_4_probe_aliases x).1.perpass_verbose.length = 5)
    (hc : ∀ x, (b.clear_script_data x).verbose = x.verbose
      ∧ (b.clear_script_data x).perpass_verbose = x.perpass_verbose
      ∧ (b.clear_script_data x).last_pass = x.last_pass) :
    (interactive_mode_bootstrap b s probe_map).1.verbose = s.verbose
    ∧ (interactive_mode_bootstrap b s probe_map).1.perpass_verbose = s.perpass_verbose
    ∧ (interactive_mode_bootstrap b s probe_map).1.last_pass = s.last_pass := by
  unfold interactive_mode_bootstrap
  refine ⟨?_, ?_, ?_⟩
  · rw [(hc _).1]
  · rw [(hc _).2.1]
    exact assign_perpass_verbose_eq s.perpass_verbose _ hs (hp _)
  · rw [(hc _).2.2]

/-- C22 for pipeline calls that overwrite all three fields. -/
theorem bootstrap_restores_session_witness :
    (interactive_mode_bootstrap
        { server_setup := fun x => { x with verbose := 9 },
          passes_0_4_probe_types := fun x =>
            ({ x with last_pass := 1 }, "kernel.function(string)\n".toList),
          passes_0_4_probe_aliases := fun x =>
            ({ x with verbose := 7, perpass_verbose := [7, 7, 7, 7, 7] },
              "syscall.read = kernel.function(\"sys_read\")\n".toList),
          clear_script_data := fun x => { x with cmdline_script := [], have_script := false } }
        { sample_session with verbose := 3, perpass_verbose := [3, 1, 4, 1, 5], last_pass := 4 }
        []).1.perpass_verbose = [3, 1, 4, 1, 5] :=
  (bootstrap_restores_session
    { server_setup := fun x => { x with verbose := 9 },
      passes_0_4_probe_types := fun x =>
        ({ x with last_pass := 1 }, "kernel.function(string)\n".toList),
      passes_0_4_probe_aliases := fun x =>
        ({ x with verbose := 7, perpass_verbose := [7, 7, 7, 7, 7] },
          "syscall.read = kernel.function(\"sys_read\")\n".toList),
      clear_script_data := fun x => { x with cmdline_script := [], have_script := false } }
    { sample_session with verbose := 3, perpass_verbose := [3, 1, 4, 1, 5], last_pass := 4 }
    [] rfl (fun _ => rfl) (fun _ => ⟨rfl, rfl, rfl⟩)).2.1

/-- Claim C23, evaluated where it fails; `stap_fork_read` hands the parent
the exit status of the child and the text of the pipe.  The child ends with
return code 0 and a `uprobes_path` with a blank in it: `ss >> s.uprobes_path`
stops at the blank and the parent holds only the part before it.  With an
empty `uprobes_path` in the child the parent finds only white space after the
module name, the extraction fails and the parent keeps the path it held
before the call. -/
theorem forked_passes_keeps_stale_path :
    ((forked_passes_0_4
        { sample_external with
          fork_read := forked_child (fun s =>
            some (0, { s with module_name := "stap_1".toList,
                              uprobes_path := "/tmp/my dir/uprobes.ko".toList })) }
        sample_session).2.module_name,
     (forked_passes_0_4
        { sample_external with
          fork_read := forked_child (fun s =>
            some (0, { s with module_name := "stap_1".toList,
                              uprobes_path := "/tmp/my dir/uprobes.ko".toList })) }
        sample_session).2.uprobes_path)
      = ("stap_1".toList, "/tmp/my".toList)
    ∧ ((forked_passes_0_4
        { sample_external with
          fork_read := forked_child (fun s =>
            some (0, { s with module_name := "stap_1".toList, uprobes_path := [] })) }
        { sample_session with uprobes_path := "/old/uprobes.ko".toList }).2.module_name,
       (forked_passes_0_4
        { sample_external with
          fork_read := forked_child (fun s =>
            some (0, { s with module_name := "stap_1".toList, uprobes_path := [] })) }
        { sample_session with uprobes_path := "/old/uprobes.ko".toList }).2.uprobes_path)
      = ("stap_1".toList, "/old/uprobes.ko".toList) := by
  decide

/-- Claim C24 fails as stated: with `no_default` on a terminal, `query`
returns 1 at the end of input when no response was given, and when the one
response given, `maybe`, does not begin with `y` or `Y`. -/
theorem query_no_default_end_of_input :
    (query true .no_default []).retval = 1
    ∧ ([] : List string).any begins_yes = false
    ∧ (query true .no_default ["maybe".toList]).retval = 1
    ∧ ["maybe".toList].any begins_yes = false := by
  refine ⟨rfl, rfl, rfl, by decide⟩

/-- Claim C24 as amended: for responses as `readline` delivers them (C
strings, so without the terminator inside), `query` returns 1 exactly when
`answered_yes` holds and 0 otherwise: off a terminal and at the end of input
without an answer it returns 1 with `default_yes` and with `no_default`, 0
with `default_no`; else the first response that settles the question decides,
1 when it begins with `y` or `Y`, 0 when it begins with `n` or `N`, and for an
empty one, which settles the question only when a default was specified, 1
with `default_yes` and 0 with `default_no`.  With `no_default` an empty
response is passed over like any other that is no answer. -/
theorem query_returns (isatty : Bool) (qdefault : query_default)
    (responses : List string) (hnul : ∀ r ∈ responses, Char.ofNat 0 ∉ r) :
    ((query isatty qdefault responses).retval = 1
      ↔ answered_yes isatty qdefault responses = true)
    ∧ ((query isatty qdefault responses).retval = 0
      ↔ answered_yes isatty qdefault responses = false)
    ∧ answered_yes false qdefault responses = decide (qdefault ≠ .default_no)
    ∧ answered_yes true qdefault [] = decide (qdefault ≠ .default_no)
    ∧ answered_yes true .no_default [[], "y".toList] = true
    ∧ answered_yes true .no_default [[], "n".toList] = false
    ∧ answered_yes true .default_yes [[], "n".toList] = true
    ∧ answered_yes true .default_no [[], "y".toList] = false
    ∧ answered_yes true .default_no ["what".toList, "Yes".toList] = true := by
  have key : (query isatty qdefault responses).retval
      = if answered_yes isatty qdefault responses = true then 1 else 0 := by
    cases isatty with
    | false => cases qdefault <;> rfl
    | true =>
      have h := query_loop_retval qdefault responses [] hnul
      unfold query
      simp only [Bool.true_eq_false, if_false]
      exact h
  refine ⟨?_, ?_, rfl, by cases qdefault <;> rfl, by decide, by decide, by decide,
    by decide, by decide⟩
  · rw [key]
    cases answered_yes isatty qdefault responses <;> simp
  · rw [key]
    cases answered_yes isatty qdefault responses <;> simp

/-- Amended C24 on a terminal, `no_default`: an empty response and `maybe` are
passed over and `Yes` decides. -/
theorem query_returns_witness :
    (∀ r ∈ [[], "maybe".toList, "Yes".toList], Char.ofNat 0 ∉ r)
    ∧ (query true .no_default [[], "maybe".toList, "Yes".toList]).retval = 1 :=
  ⟨by decide,
   (query_returns true .no_default [[], "maybe".toList, "Yes".toList] (by decide)).1.mpr
     (by decide)⟩

/-- Claim C25 fails as stated: completing `proc` on the index of the three
lines yields one candidate, and it is `process(number).function(string)`,
not `process(number)`. -/
theorem probe_generator_proc_not_root :
    (rl_completion_matches
        (fun state st => probe_generator (process_probe_list example_probes true [])
          "proc".toList 3 "proc".toList state st) 3 0 []).map Prod.fst
      = some ["process(number).function(string)".toList]
    ∧ (rl_completion_matches
        (fun state st => probe_generator (process_probe_list example_probes true [])
          "proc".toList 3 "proc".toList state st) 3 0 []).map Prod.fst
      ≠ some ["process(number)".toList] := by
  decide

/-- Claim C25 as amended: completing `proc` (saved token `proc`, word `proc`)
on the index of the three lines yields exactly one candidate, the path
`process(number).function(string)` of the one terminal node below
`process(number)`, and nothing from the subtree of `kernel`; the node
`process(number)` itself is not terminal. -/
theorem probe_generator_proc (fuel : Nat) (stack : probe_stack) (hfuel : 3 ≤ fuel) :
    rl_completion_matches
        (fun state st => probe_generator (process_probe_list example_probes true [])
          "proc".toList fuel "proc".toList state st) fuel 0 stack
      = some (["process(number).function(string)".toList], [])
    ∧ (lookup_path ["process(number)".toList]
        (process_probe_list example_probes true [])).map (fun n => n.terminal) = some false := by
  refine ⟨?_, by decide⟩
  have hsize : stack_size (initial_stack (process_probe_list example_probes true [])
      "proc".toList "proc".toList) = 2 := by decide
  have hcand : stack_candidates (initial_stack (process_probe_list example_probes true [])
      "proc".toList "proc".toList) = ["process(number).function(string)".toList] := by decide
  rw [probe_generator_restart _ _ _ fuel stack (by omega), hcand]

/-- Amended C25 with fuel 3 from an empty stack. -/
theorem probe_generator_proc_witness :
    3 ≤ 3 ∧ rl_completion_matches
        (fun state st => probe_generator (process_probe_list example_probes true [])
          "proc".toList 3 "proc".toList state st) 3 0 []
      = some (["process(number).function(string)".toList], []) :=
  ⟨le_refl _, (probe_generator_proc 3 [] (le_refl _)).1⟩

/-- Claim C26, evaluated where it fails: a new node gets
`terminal = (segment == tokens.back())`, a comparison of texts; for the line
`a.b.a` fed to an empty index the node created for the first segment `a` is
marked terminal, although `a` alone was never fed as a path.  For `a.b.c` it
is not. -/
theorem first_segment_marked_terminal :
    (∀ (handle_regexps : Bool) (tok back : string) (subs : match_item_map),
      (new_match_item handle_regexps tok back subs).terminal = decide (tok = back))
    ∧ (process_probe_list ["a.b.a".toList] true []).map (fun e => (e.1, e.2.terminal))
      = [("a".toList, true)]
    ∧ (process_probe_list ["a.b.c".toList] true []).map (fun e => (e.1, e.2.terminal))
      = [("a".toList, false)] := by
  refine ⟨?_, by decide, by decide⟩
  intro handle_regexps tok back subs
  unfold new_match_item
  dsimp only
  split <;> rfl

/-- Claim C27: the node created for a segment has, with placeholder handling
and the marker `(number)` in the segment, the text before the first such
marker as `match_text` and the number pattern; else with placeholder
handling and the marker `(string)`, the text before it and the string
pattern; in every other case the whole segment and no pattern.  `string_find`
gives a position exactly when the marker occurs.  The node is stored under
the segment itself, so `process(number)` and `process(string)` are two
children with the same `match_text` and different patterns. -/
theorem new_node_fields (handle_regexps : Bool) (tok back : string)
    (subs m : match_item_map) (rest : List string) :
    (∀ p, handle_regexps = true → string_find "(number)".toList tok = some p →
      (new_match_item handle_regexps tok back subs).match_text = tok.take p
      ∧ (new_match_item handle_regexps tok back subs).regexp = number_regexp)
    ∧ (∀ p, handle_regexps = true → string_find "(number)".toList tok = none →
      string_find "(string)".toList tok = some p →
      (new_match_item handle_regexps tok back subs).match_text = tok.take p
      ∧ (new_match_item handle_regexps tok back subs).regexp = string_regexp)
    ∧ (handle_regexps = false
        ∨ (string_find "(number)".toList tok = none ∧ string_find "(string)".toList tok = none) →
      (new_match_item handle_regexps tok back subs).match_text = tok
      ∧ (new_match_item handle_regexps tok back subs).regexp = [])
    ∧ (∀ pat p, string_find pat tok = some p → ∃ r, tok = tok.take p ++ pat ++ r)
    ∧ (∀ pat, string_find pat tok = none → ¬ pat <:+: tok)
    ∧ (map_count m tok = 0 →
      map_find (process_tokens handle_regexps back (tok :: rest) m) tok
        = some (new_match_item handle_regexps tok back
            (process_tokens handle_regexps back rest [])))
    ∧ (process_probe_list ["process(number)".toList, "process(string)".toList] true []).map
        (fun e => (e.1, e.2.match_text, e.2.regexp))
      = [("process(number)".toList, "process".toList, number_regexp),
         ("process(string)".toList, "process".toList, string_regexp)] := by
  refine ⟨?_, ?_, ?_, fun pat p h => string_find_some pat tok p h,
    fun pat h => string_find_none pat tok h, ?_, by decide⟩
  · intro p hr hn
    subst hr
    unfold new_match_item
    simp only [if_true]
    rw [hn]
    exact ⟨rfl, rfl⟩
  · intro p hr hn hs
    subst hr
    unfold new_match_item
    simp only [if_true]
    rw [hn, hs]
    exact ⟨rfl, rfl⟩
  · rintro (hr | ⟨hn, hs⟩)
    · subst hr
      exact ⟨rfl, rfl⟩
    · cases handle_regexps
      · exact ⟨rfl, rfl⟩
      · unfold new_match_item
        simp only [if_true]
        rw [hn, hs]
        exact ⟨rfl, rfl⟩
  · intro hc
    rw [process_tokens, if_pos hc, map_find_insert_self]

/-- Claim C28: a node that is in the index under a path of keys is there
under the same path, with the same `match_text`, `regexp` and `terminal`,
after one more line and after any further dump, with either setting of
placeholder handling; and a dump fed a second time leaves the index as the
first feeding left it. -/
theorem index_only_grows :
    (∀ (handle_regexps : Bool) (line : string) (m : match_item_map) (path : List string)
        (node : match_item), lookup_path path m = some node →
      ∃ node1, lookup_path path (process_line handle_regexps m line) = some node1
        ∧ same_fields node node1)
    ∧ (∀ (handle_regexps : Bool) (probe_stream : List string) (m : match_item_map)
        (path : List string) (node : match_item), lookup_path path m = some node →
      ∃ node1, lookup_path path (process_probe_list probe_stream handle_regexps m) = some node1
        ∧ same_fields node node1)
    ∧ (∀ (first second : Bool) (probe_stream : List string) (m : match_item_map),
      process_probe_list probe_stream second (process_probe_list probe_stream first m)
        = process_probe_list probe_stream first m)
    ∧ (lookup_path ["kernel".toList, "function(string)".toList]
        (process_probe_list example_probes true [])).map (fun n => n.terminal) = some true := by
  refine ⟨fun hr line m path node h => process_line_frame hr line m path node h,
    fun hr lines m path node h => process_probe_list_frame hr lines m path node h,
    ?_, by decide⟩
  intro first second probe_stream m
  exact process_probe_list_fixed second probe_stream _
    (lines_present_after first probe_stream m)

/-- Claim C30: for a buffer of `n` lines (a count that fits `long`) and a
line number `N` in decimal digits with `1 ≤ N ≤ n`, `delete N` returns false
and leaves the lines before the `N`-th followed by the lines after it, so
`n - 1` lines in their order. -/
theorem delete_line (ext : external) (st : repl_state) (t : string)
    (hne : t ≠ []) (hd : ∀ c ∈ t, c.isDigit = true)
    (hsize : (st.handler.script_vec.length : Int) ≤ LONG_MAX)
    (h1 : 1 ≤ decimal_value t) (hn : decimal_value t ≤ st.handler.script_vec.length) :
    delete_cmd_handler ext st ["delete".toList, t]
      = .ok (st.set_script (st.handler.script_vec.take (decimal_value t - 1)
          ++ st.handler.script_vec.drop (decimal_value t)), false)
    ∧ (st.handler.script_vec.take (decimal_value t - 1)
          ++ st.handler.script_vec.drop (decimal_value t)).length
        = st.handler.script_vec.length - 1 := by
  have hfit : (decimal_value t : Int) ≤ LONG_MAX := by omega
  have hmax : LONG_MAX = 9223372036854775807 := by decide
  constructor
  · unfold delete_cmd_handler
    have e1 : ([("delete".toList : string), t].length = 1) = False := by simp
    have e2 : ([("delete".toList : string), t].length ≠ 2) = False := by simp
    have e3 : vector_at ["delete".toList, t] 1 = .ok t := rfl
    simp only [e1, e2, if_false, e3, bind, Except.bind, strtol_digits t hne hd hfit]
    have h4 : ¬ ((0 : Int) ≠ 0 ∨ ([] : string) ≠ [] ∨ (decimal_value t : Int) < 0) := by
      simp
    rw [if_neg h4]
    have hmod : ((decimal_value t : Int) - 1) % 2 ^ 64 = ((decimal_value t - 1 : Nat) : Int) := by
      rw [Int.emod_eq_of_lt (by omega) (by omega)]
      omega
    have h5 : ¬ (((decimal_value t : Int) - 1) % 2 ^ 64 > (st.handler.script_vec.length : Int)) := by
      rw [hmod]; omega
    simp only [h5, if_false, hmod, Int.toNat_ofNat]
    have h6 : decimal_value t - 1 < st.handler.script_vec.length := by omega
    simp only [vector_erase, h6, if_true, pure, Except.pure]
    rw [List.eraseIdx_eq_take_drop_succ]
    have : decimal_value t - 1 + 1 = decimal_value t := by omega
    rw [this]
    have h7 : ¬ (((decimal_value t - 1 : Nat) : Int) > (st.handler.script_vec.length : Int)) := by
      omega
    rw [if_neg h7]
  · simp only [List.length_append, List.length_take, List.length_drop]
    omega

/-- C30 on a script of two lines: `delete 1` leaves the second line. -/
theorem delete_line_witness :
    (delete_cmd_handler sample_external sample_state ["delete".toList, "1".toList]).map
      (fun r => (r.1.handler.script_vec, r.2))
      = .ok (["probe end".toList], false) := by
  rw [(delete_line sample_external sample_state "1".toList (by decide) (by decide)
    (by decide) (by decide) (by decide)).1]
  rfl

/-- Claim C31, evaluated where it fails: the test before the erase is
`item_num > script_vec.size()`, so for a buffer of `n` lines the number
`n + 1` passes it and `script_vec.erase(script_vec.begin() + n)` is reached,
an erase at `end()`: `delete 3` on a script of two lines and `delete 1` on an
empty script are not rejected. -/
theorem delete_one_past_end :
    (∀ (ext : external) (st : repl_state) (t : string), t ≠ [] →
        (∀ c ∈ t, c.isDigit = true) → (decimal_value t : Int) ≤ LONG_MAX →
        decimal_value t = st.handler.script_vec.length + 1 →
        delete_cmd_handler ext st ["delete".toList, t] = .error .erase_at_end)
    ∧ delete_cmd_handler sample_external sample_state ["delete".toList, "3".toList]
      = .error .erase_at_end
    ∧ delete_cmd_handler sample_external (sample_state.set_script [])
        ["delete".toList, "1".toList]
      = .error .erase_at_end := by
  refine ⟨?_, rfl, rfl⟩
  intro ext st t hne hd hfit hn
  have hmax : LONG_MAX = 9223372036854775807 := by decide
  unfold delete_cmd_handler
  have e1 : ([("delete".toList : string), t].length = 1) = False := by simp
  have e2 : ([("delete".toList : string), t].length ≠ 2) = False := by simp
  have e3 : vector_at ["delete".toList, t] 1 = .ok t := rfl
  simp only [e1, e2, if_false, e3, bind, Except.bind, strtol_digits t hne hd hfit]
  have h4 : ¬ ((0 : Int) ≠ 0 ∨ ([] : string) ≠ [] ∨ (decimal_value t : Int) < 0) := by
    simp
  rw [if_neg h4]
  have hmod : ((decimal_value t : Int) - 1) % 2 ^ 64
      = ((st.handler.script_vec.length : Nat) : Int) := by
    rw [Int.emod_eq_of_lt (by omega) (by omega)]
    omega
  simp only [hmod, Int.toNat_ofNat, gt_iff_lt, lt_self_iff_false, if_false]
  simp only [vector_erase, lt_self_iff_false, if_false]

/-- Claim C32, evaluated where it fails: on the index of the three lines the
node under the key `kernel` has the text `kernel` and two terminal paths
begin with that key; completing the line `add probe kernel` (saved token and
word `kernel`) yields no candidate, because the saved token fully matches the
node and the partial matches are taken among its children.  Completing
`kerne` yields both paths, and completing `process`, the whole text of the
node under `process(number)`, yields the path below that node. -/
theorem complete_whole_segment_yields_nothing :
    ((interactive_completion 6 (initial_globals (process_probe_list example_probes true []))
          "add probe kernel".toList "kernel".toList 10).map
        (fun r => (r.match_list, r.entry_func, r.globals.saved_token)))
      = some ([], some .probe_generator, "kernel".toList)
    ∧ ((interactive_completion 6 (initial_globals (process_probe_list example_probes true []))
          "add probe kerne".toList "kerne".toList 10).map
        (fun r => (r.match_list, r.entry_func, r.globals.saved_token)))
      = some (["kernel.function(string)".toList, "kernel.trace(string)".toList],
          some .probe_generator, "kerne".toList)
    ∧ ((interactive_completion 6 (initial_globals (process_probe_list example_probes true []))
          "add probe process".toList "process".toList 10).map
        (fun r => (r.match_list, r.entry_func, r.globals.saved_token)))
      = some (["process(number).function(string)".toList],
          some .probe_generator, "process".toList)
    ∧ (lookup_path ["kernel".toList] (process_probe_list example_probes true [])).map
        (fun n => (n.match_text, n.regexp)) = some ("kernel".toList, [])
    ∧ terminal_paths (process_probe_list example_probes true []) "kernel".toList
      = ["kernel.function(string)".toList, "kernel.trace(string)".toList]
    ∧ (probe_descend (tokenize "kernel".toList ".".toList)
        (process_probe_list example_probes true [])).map Prod.fst
      = ["function(string)".toList, "trace(string)".toList] := by
  refine ⟨by decide, by decide, by decide, by decide, by decide, by decide⟩

/-- Claim C33: `load FILE` with a file that opens for reading leaves the
buffer followed by the lines that `getline` delivers from the file, in their
order, and returns false; with a file that does not open, or with a number of
tokens other than 2, it leaves the buffer as it was.  In every case the buffer
before the command is a prefix of the buffer after it.  The lines of a text
made of lines without a newline, each followed by a newline, are those
lines. -/
theorem load_appends (h : handler_state) (tokens : List string) :
    (∀ text, tokens.length = 2 → h.files.contents (tokens.getD 1 []) = some text →
      (load_cmd_handler h tokens).1.script_vec = h.script_vec ++ getline_loop text []
      ∧ (load_cmd_handler h tokens).2 = false)
    ∧ (tokens.length = 2 → h.files.contents (tokens.getD 1 []) = none →
      (load_cmd_handler h tokens).1.script_vec = h.script_vec)
    ∧ (tokens.length ≠ 2 → (load_cmd_handler h tokens).1.script_vec = h.script_vec)
    ∧ h.script_vec <+: (load_cmd_handler h tokens).1.script_vec
    ∧ (∀ lines : List string, lines ≠ [] → (∀ l ∈ lines, '\n' ∉ l) →
      getline_loop (join lines "\n".toList ++ "\n".toList) [] = lines)
    ∧ (load_cmd_handler
        { script_vec := ["probe begin".toList],
          files := { contents := fun _ => some "probe end\n\nprobe x".toList,
                     writable := fun _ => true },
          output := [] }
        ["load".toList, "f".toList]).1.script_vec
      = ["probe begin".toList, "probe end".toList, [], "probe x".toList] := by
  refine ⟨?_, ?_, ?_, ?_, fun lines hne hnl => save_text_lines lines hne hnl, by decide⟩
  · intro text h2 hc
    have h2' : ¬ tokens.length ≠ 2 := by omega
    unfold load_cmd_handler
    rw [if_neg h2', hc]
    exact ⟨rfl, rfl⟩
  · intro h2 hc
    have h2' : ¬ tokens.length ≠ 2 := by omega
    unfold load_cmd_handler
    rw [if_neg h2', hc]
  · intro h2
    unfold load_cmd_handler
    rw [if_pos h2]
  · unfold load_cmd_handler
    split
    · exact List.prefix_refl _
    · split
      · exact List.prefix_refl _
      · exact List.prefix_append _ _

end Interactive
